import Mathlib

/-!
# ip2unix: the call-forwarding layer of `src/realcalls.hh`

A shallow embedding of `real::DlsymFun::operator()` and of the `DLSYM_FUN`
registry, followed by the properties of the resolve-once / call-always
mechanism.

Conventions of the embedding.

* Addresses are natural numbers and `0` is `nullptr`.
* The dynamic loader and the genuine C functions are not code of this
  repository; they are the parameter `Env`: `dlsym` is the lookup
  `dlsym(RTLD_NEXT, name)` and `apply addr args w` is the effect of calling
  the function stored at `addr` on the system state `w`.
* The observable actions of an invocation are appended to `State.log` in
  program order.  An action that reads or writes `fptr`, and the forwarded
  call, records whether `g_dlsym_mutex` was held at that moment.
* `DlsymFun.operator` is the body of the operator run by one thread from
  entry to return or `_exit`.  `Sys.step` is the same body one statement at
  a time, for several threads that interleave; there `lock()` can only be
  run while the mutex is free, and `Sys.holder` is the thread that owns the
  mutex.  `solo_eq_operator` relates the two.
-/

namespace Ip2unix

/-! ## The registry (`DLSYM_FUN`, lines 48-64) -/

/-- The C types that occur in the signatures of the registry. -/
inductive CType
  | int
  | socklen_t
  | sockaddrPtr
  | constSockaddrPtr
  | socklenPtr
  | constVoidPtr
  deriving DecidableEq, Repr

/-- What one use of the `DLSYM_FUN` preprocessor definition declares. -/
structure Decl where
  /-- the declared object, `name` -/
  object : String
  /-- the declared struct, `name##_fun_t` -/
  struct : String
  /-- the member `fname`, `#name` -/
  fname : String
  /-- the `Ret` of `DlsymFun<Self, Ret, FunArgs...>` -/
  ret : CType
  /-- the `FunArgs...` of `DlsymFun<Self, Ret, FunArgs...>` -/
  params : List CType
  deriving DecidableEq, Repr

/-- Expansion of `DLSYM_FUN(name, Ret, FunArgs...)` (lines 48-51). -/
def DLSYM_FUN (name : String) (ret : CType) (params : List CType) : Decl :=
  { object := name, struct := name ++ "_fun_t", fname := name, ret := ret, params := params }

/-- The proxy objects that lines 53-64 can declare in namespace `real`. -/
inductive Proxy
  | accept
  | accept4
  | bind
  | close
  | connect
  | getpeername
  | getsockname
  | listen
  | setsockopt
  | socket
  deriving DecidableEq, Repr

/-- The `DLSYM_FUN` line of each proxy (lines 53-64). -/
def Proxy.decl : Proxy → Decl
  | .accept => DLSYM_FUN "accept" .int [.int, .sockaddrPtr, .socklenPtr]
  | .accept4 => DLSYM_FUN "accept4" .int [.int, .sockaddrPtr, .socklenPtr, .int]
  | .bind => DLSYM_FUN "bind" .int [.int, .constSockaddrPtr, .socklen_t]
  | .close => DLSYM_FUN "close" .int [.int]
  | .connect => DLSYM_FUN "connect" .int [.int, .constSockaddrPtr, .socklen_t]
  | .getpeername => DLSYM_FUN "getpeername" .int [.int, .sockaddrPtr, .socklenPtr]
  | .getsockname => DLSYM_FUN "getsockname" .int [.int, .sockaddrPtr, .socklenPtr]
  | .listen => DLSYM_FUN "listen" .int [.int, .int]
  | .setsockopt =>
      DLSYM_FUN "setsockopt" .int [.int, .int, .int, .constVoidPtr, .socklen_t]
  | .socket => DLSYM_FUN "socket" .int [.int, .int, .int]

/-- The `Self::fname` of a proxy. -/
def Proxy.fname (p : Proxy) : String := p.decl.fname

/-- The proxies declared by lines 53-64, in source order; the argument is
whether `SOCKET_ACTIVATION` is defined (lines 60-62). -/
def registry (SOCKET_ACTIVATION : Bool) : List Proxy :=
  [.accept, .accept4, .bind, .close, .connect, .getpeername, .getsockname]
    ++ (if SOCKET_ACTIVATION then [.listen] else [])
    ++ [.setsockopt, .socket]

/-! ## State, environment and events -/

/-- The value of `EXIT_FAILURE` in `<stdlib.h>`. -/
def EXIT_FAILURE : Int := 1

/-- Observable actions of `operator()`. -/
inductive Event (A R : Type)
  /-- the call `g_dlsym_mutex.lock()` has returned -/
  | lock
  /-- the call `g_dlsym_mutex.unlock()` -/
  | unlock
  /-- the read of `this->fptr` in `this->fptr == nullptr` -/
  | test (self : Proxy) (isNull : Bool) (held : Bool)
  /-- the call `dlsym(RTLD_NEXT, name)` and what it returned -/
  | dlsym (name : String) (result : Nat)
  /-- the call `perror(msg)` -/
  | perror (msg : String)
  /-- the assignment to `this->fptr` -/
  | store (self : Proxy) (addr : Nat) (held : Bool)
  /-- the call `this->fptr(args ...)` and what it returned -/
  | call (addr : Nat) (args : A) (ret : R) (held : Bool)
  /-- the call `_exit(status)` -/
  | exit (status : Int)
  deriving DecidableEq, Repr

/-- What the process links against: the loader's lookup and the functions
behind the addresses it hands out. -/
structure Env (W A R : Type) where
  /-- the result of `dlsym(RTLD_NEXT, name)`; `0` is `nullptr`.  The objects
  loaded after the shim do not change while the proxies run, so the result
  depends on the name only. -/
  dlsym : String → Nat
  /-- calling the function at an address: its result and the new system state -/
  apply : Nat → A → W → R × W

/-- The memory the proxies share, the system state, and the log. -/
structure State (W A R : Type) where
  /-- whether `g_dlsym_mutex` is held -/
  mutex : Bool
  /-- the member `fptr` of each proxy object; `0` is `nullptr` -/
  fptr : Proxy → Nat
  /-- the state of the real system -/
  world : W
  /-- the actions so far, oldest first -/
  log : List (Event A R)

/-- How an invocation ends. -/
inductive Outcome (R : Type)
  /-- the operator returned this value to its caller -/
  | returned (r : R)
  /-- the process was terminated by `_exit` with this status -/
  | exited (status : Int)
  deriving DecidableEq, Repr

variable {W A R : Type}

/-- State at load time: the mutex is free and every `fptr` has its default
member initialiser `nullptr` (line 27). -/
def State.init (w : W) : State W A R :=
  { mutex := false, fptr := fun _ => 0, world := w, log := [] }

/-- Append an action to the log. -/
def State.emit (s : State W A R) (e : Event A R) : State W A R :=
  { s with log := s.log ++ [e] }

/-- The statement `g_dlsym_mutex.lock()`, seen from the thread for which it
returns: that thread now holds the mutex. -/
def State.lock (s : State W A R) : State W A R :=
  { s with mutex := true, log := s.log ++ [Event.lock] }

/-- The statement `g_dlsym_mutex.unlock()`. -/
def State.unlock (s : State W A R) : State W A R :=
  { s with mutex := false, log := s.log ++ [Event.unlock] }

/-- The read in `this->fptr == nullptr` (line 33). -/
def State.test (s : State W A R) (self : Proxy) : State W A R :=
  s.emit (Event.test self (decide (s.fptr self = 0)) s.mutex)

/-- The assignment `this->fptr = reinterpret_cast<decltype(fptr)>(result)`
(line 41). -/
def State.store (s : State W A R) (self : Proxy) (result : Nat) : State W A R :=
  { s with fptr := Function.update s.fptr self result,
           log := s.log ++ [Event.store self result s.mutex] }

/-- The statement `return this->fptr(args ...)` (line 44). -/
def State.forward (E : Env W A R) (s : State W A R) (self : Proxy) (args : A) :
    Outcome R × State W A R :=
  let res := E.apply (s.fptr self) args s.world
  (Outcome.returned res.1,
    { s with world := res.2,
             log := s.log ++ [Event.call (s.fptr self) args res.1 s.mutex] })

/-- The argument of `perror`: `"dlsym(" + std::string(Self::fname) + ")"`
(line 36). -/
def diagnostic (self : Proxy) : String := "dlsym(" ++ self.fname ++ ")"

/-- The body of `real::DlsymFun::operator()` (lines 32-44) for the proxy
object `self`. -/
def DlsymFun.operator (E : Env W A R) (self : Proxy) (args : A) (s : State W A R) :
    Outcome R × State W A R :=
  let s := s.lock                                         -- line 32
  let s := s.test self                                    -- line 33
  if s.fptr self = 0 then
    let result := E.dlsym self.fname                      -- line 34
    let s := s.emit (Event.dlsym self.fname result)
    if result = 0 then                                    -- line 35
      let msg := diagnostic self                          -- line 36
      let s := s.emit (Event.perror msg)                  -- line 37
      let s := s.unlock                                   -- line 38
      (Outcome.exited EXIT_FAILURE, s.emit (Event.exit EXIT_FAILURE))  -- line 39
    else
      let s := s.store self result                        -- line 41
      let s := s.unlock                                   -- line 43
      s.forward E self args                               -- line 44
  else
    let s := s.unlock                                     -- line 43
    s.forward E self args                                 -- line 44

/-- The actions that one invocation appends to the log. -/
def DlsymFun.events (E : Env W A R) (self : Proxy) (args : A) (s : State W A R) :
    List (Event A R) :=
  (DlsymFun.operator E self args s).2.log.drop s.log.length

/-- The address an invocation forwards to when it does not terminate the
process: the cached pointer if there is one, else what the lookup returns. -/
def DlsymFun.target (E : Env W A R) (self : Proxy) (s : State W A R) : Nat :=
  if s.fptr self = 0 then E.dlsym self.fname else s.fptr self

/-! ### Classifying events -/

/-- Is the event a lookup? -/
def Event.isDlsym : Event A R → Bool
  | .dlsym _ _ => true
  | _ => false

/-- Is the event a forwarded call? -/
def Event.isCall : Event A R → Bool
  | .call _ _ _ _ => true
  | _ => false

/-- Is the event a diagnostic? -/
def Event.isPerror : Event A R → Bool
  | .perror _ => true
  | _ => false

/-- Is the event an acquisition of the mutex? -/
def Event.isLock : Event A R → Bool
  | .lock => true
  | _ => false

/-- Is the event a release of the mutex? -/
def Event.isUnlock : Event A R → Bool
  | .unlock => true
  | _ => false

/-- Is the event a process exit? -/
def Event.isExit : Event A R → Bool
  | .exit _ => true
  | _ => false

/-- For an access to a cached pointer (the null test or the store), whether
the mutex was held; `true` for every other event. -/
def Event.fptrAccessHeld : Event A R → Bool
  | .test _ _ held => held
  | .store _ _ held => held
  | _ => true

/-- For a forwarded call, whether the mutex was held; `false` for every
other event. -/
def Event.callHeld : Event A R → Bool
  | .call _ _ _ held => held
  | _ => false

/-! ### A small concrete system, for running the code -/

/-- A loader that knows `socket` and `close` and no other symbol. -/
def demoDlsym (name : String) : Nat :=
  if name = "socket" then 64 else if name = "close" then 65 else 0

/-- A toy kernel over the list of open descriptors: the function at address
64 opens a fresh descriptor, the one at 65 closes its first argument (`0`,
or `-1` when that descriptor is not open). -/
def demoApply (addr : Nat) (args : List Int) (w : List Int) : Int × List Int :=
  if addr = 64 then (w.foldl max 2 + 1, (w.foldl max 2 + 1) :: w)
  else if addr = 65 then
    match args with
    | [fd] => if fd ∈ w then (0, w.erase fd) else (-1, w)
    | _ => (-1, w)
  else (-1, w)

/-- The concrete environment. -/
def demoEnv : Env (List Int) (List Int) Int :=
  { dlsym := demoDlsym, apply := demoApply }

/-- The concrete load-time state: no descriptor above the standard three. -/
def demoInit : State (List Int) (List Int) Int := State.init []

/-! ### Sequences of invocations -/

/-- One invocation of a sequence: the state it started in, its arguments,
how it ended and the state it left. -/
structure Run (W A R : Type) where
  /-- the state before the invocation -/
  pre : State W A R
  /-- the arguments passed -/
  args : A
  /-- how the invocation ended -/
  outcome : Outcome R
  /-- the state after the invocation -/
  post : State W A R

/-- The actions of one invocation of a sequence. -/
def Run.events (r : Run W A R) : List (Event A R) :=
  r.post.log.drop r.pre.log.length

/-- Successive invocations of one proxy, one after the other, each with its
own arguments; nothing is invoked after `_exit`. -/
def invocations (E : Env W A R) (self : Proxy) : List A → State W A R → List (Run W A R)
  | [], _ => []
  | a :: rest, s =>
    match DlsymFun.operator E self a s with
    | (Outcome.returned r, t) =>
        { pre := s, args := a, outcome := Outcome.returned r, post := t }
          :: invocations E self rest t
    | (Outcome.exited c, t) =>
        [{ pre := s, args := a, outcome := Outcome.exited c, post := t }]

/-! ### Threads: `operator()` one statement at a time -/

/-- The statement of `operator()` a thread is about to run. -/
inductive Pc (R : Type)
  /-- before `g_dlsym_mutex.lock()` (line 32) -/
  | atLock
  /-- before the test `this->fptr == nullptr` (line 33) -/
  | atTest
  /-- before `dlsym` and the test of its result (lines 34-35) -/
  | atDlsym
  /-- before building the message and `perror` (lines 36-37) -/
  | atPerror
  /-- before the `unlock` of the fatal path (line 38) -/
  | atUnlockFatal
  /-- before `_exit(EXIT_FAILURE)` (line 39) -/
  | atExit
  /-- before the assignment of `result` to `this->fptr` (line 41) -/
  | atStore (result : Nat)
  /-- before the `unlock` of line 43 -/
  | atUnlock
  /-- before `return this->fptr(args ...)` (line 44) -/
  | atCall
  /-- the operator has returned this value -/
  | done (r : R)
  deriving DecidableEq, Repr

/-- A process whose threads are all inside `operator()` of one proxy. -/
structure Sys (W A R : Type) where
  /-- the number of threads; they are numbered from `0` -/
  n : Nat
  /-- the shared memory, the system state and the log -/
  mem : State W A R
  /-- where each thread is -/
  pc : Nat → Pc R
  /-- the exit status, once a thread has run `_exit` -/
  exited : Option Int
  /-- the thread that owns `g_dlsym_mutex`: the one to which `lock()` has
  returned and which has not yet run `unlock()` -/
  holder : Option Nat

/-- The start of the scenario: `n` threads enter `operator()` of the same
proxy at once, from the load-time state. -/
def Sys.init (n : Nat) (w : W) : Sys W A R :=
  { n := n, mem := State.init w, pc := fun _ => Pc.atLock, exited := none, holder := none }

/-- One statement of thread `i`, which invokes `self` with `args i`; `none`
when the thread cannot run: it does not exist, the process has exited, the
thread has returned, or it waits in `lock()` for a held mutex. -/
def Sys.step (E : Env W A R) (self : Proxy) (args : Nat → A) (i : Nat) (σ : Sys W A R) :
    Option (Sys W A R) :=
  if σ.n ≤ i ∨ σ.exited ≠ none then none
  else
    match σ.pc i with
    | Pc.atLock =>
        if σ.mem.mutex then none
        else some { σ with
          mem := σ.mem.lock,
          pc := Function.update σ.pc i Pc.atTest,
          holder := some i }
    | Pc.atTest =>
        some { σ with
          mem := σ.mem.test self,
          pc := Function.update σ.pc i
            (if σ.mem.fptr self = 0 then Pc.atDlsym else Pc.atUnlock) }
    | Pc.atDlsym =>
        some { σ with
          mem := σ.mem.emit (Event.dlsym self.fname (E.dlsym self.fname)),
          pc := Function.update σ.pc i
            (if E.dlsym self.fname = 0 then Pc.atPerror
              else Pc.atStore (E.dlsym self.fname)) }
    | Pc.atPerror =>
        some { σ with
          mem := σ.mem.emit (Event.perror (diagnostic self)),
          pc := Function.update σ.pc i Pc.atUnlockFatal }
    | Pc.atUnlockFatal =>
        some { σ with
          mem := σ.mem.unlock,
          pc := Function.update σ.pc i Pc.atExit,
          holder := none }
    | Pc.atExit =>
        some { σ with
          mem := σ.mem.emit (Event.exit EXIT_FAILURE),
          exited := some EXIT_FAILURE }
    | Pc.atStore result =>
        some { σ with
          mem := σ.mem.store self result,
          pc := Function.update σ.pc i Pc.atUnlock }
    | Pc.atUnlock =>
        some { σ with
          mem := σ.mem.unlock,
          pc := Function.update σ.pc i Pc.atCall,
          holder := none }
    | Pc.atCall =>
        some { σ with
          mem := (σ.mem.forward E self (args i)).2,
          pc := Function.update σ.pc i
            (Pc.done (E.apply (σ.mem.fptr self) (args i) σ.mem.world).1) }
    | Pc.done _ => none

/-- An interleaving: the scheduler picks the threads of the list in turn; a
pick of a thread that cannot run changes nothing. -/
def Sys.exec (E : Env W A R) (self : Proxy) (args : Nat → A) :
    List Nat → Sys W A R → Sys W A R
  | [], σ => σ
  | i :: rest, σ =>
    match Sys.step E self args i σ with
    | some τ => Sys.exec E self args rest τ
    | none => Sys.exec E self args rest σ

/-- Does the thread hold the mutex at this statement? -/
def Pc.critical : Pc R → Bool
  | .atTest | .atDlsym | .atPerror | .atUnlockFatal | .atStore _ | .atUnlock => true
  | _ => false

/-- Is the thread on the fatal path? -/
def Pc.fatal : Pc R → Bool
  | .atPerror | .atUnlockFatal | .atExit => true
  | _ => false

/-- Is the thread between a null test that found null and its store? -/
def Pc.resolving : Pc R → Bool
  | .atDlsym | .atStore _ => true
  | _ => false

/-- Is the thread about to store? -/
def Pc.storing : Pc R → Bool
  | .atStore _ => true
  | _ => false

/-- Has the thread seen or made the pointer non-null? -/
def Pc.resolved : Pc R → Bool
  | .atUnlock | .atCall | .done _ => true
  | _ => false

/-- An upper bound for the statements the thread still has to run. -/
def Pc.rank : Pc R → Nat
  | .atLock => 6
  | .atTest => 5
  | .atDlsym => 4
  | .atPerror => 3
  | .atUnlockFatal => 2
  | .atExit => 1
  | .atStore _ => 3
  | .atUnlock => 2
  | .atCall => 1
  | .done _ => 0

/-- The arguments of the threads in the concrete runs: thread `i` passes the
descriptor `i`. -/
def demoArgs (i : Nat) : List Int := [(i : Int)]

/-- A schedule that runs eight threads to completion one after the other. -/
def demoSchedule : List Nat :=
  List.replicate 6 0 ++ List.replicate 4 1 ++ List.replicate 4 2 ++ List.replicate 4 3
    ++ List.replicate 4 4 ++ List.replicate 4 5 ++ List.replicate 4 6 ++ List.replicate 4 7

/-- Has the thread returned from `operator()`? -/
def Pc.returned : Pc R → Bool
  | .done _ => true
  | _ => false

/-- What holds in every state that `n` threads reach from `Sys.init`, when
the lookup of the name of `p` does not return null. -/
structure Sys.Inv (E : Env W A R) (p : Proxy) (args : Nat → A) (n : Nat)
    (σ : Sys W A R) : Prop where
  /-- the threads are the `n` threads -/
  n_eq : σ.n = n
  /-- the process has not exited -/
  alive : σ.exited = none
  /-- no thread is on the fatal path -/
  nofatal : ∀ i < n, (σ.pc i).fatal = false
  /-- a thread about to store stores the lookup result -/
  store_val : ∀ i < n, ∀ r, σ.pc i = Pc.atStore r → r = E.dlsym p.fname
  /-- with the mutex free no thread is in the critical section -/
  free : σ.mem.mutex = false → ∀ i < n, (σ.pc i).critical = false
  /-- with the mutex held exactly one thread is in the critical section -/
  held : σ.mem.mutex = true →
    ∃ i < n, (σ.pc i).critical = true ∧ ∀ j < n, (σ.pc j).critical = true → j = i
  /-- the pointer is null or the lookup result -/
  ptr : σ.mem.fptr p = 0 ∨ σ.mem.fptr p = E.dlsym p.fname
  /-- past the null test or the store, the pointer is the lookup result -/
  ptr_resolved : ∀ i < n, (σ.pc i).resolved = true → σ.mem.fptr p = E.dlsym p.fname
  /-- between a null test that found null and the store, the pointer is null -/
  ptr_resolving : ∀ i < n, (σ.pc i).resolving = true → σ.mem.fptr p = 0
  /-- no lookup so far while the pointer is null and no thread is about to store -/
  count0 : σ.mem.fptr p = 0 → (∀ i < n, (σ.pc i).storing = false) →
    σ.mem.log.countP Event.isDlsym = 0
  /-- one lookup so far once the pointer is set or a thread is about to store -/
  count1 : (σ.mem.fptr p ≠ 0 ∨ ∃ i < n, (σ.pc i).storing = true) →
    σ.mem.log.countP Event.isDlsym = 1
  /-- every forwarded call so far went to the lookup result -/
  calls : ∀ e ∈ σ.mem.log, e.isCall = true →
    ∃ a r held, e = Event.call (E.dlsym p.fname) a r held
  /-- a thread that returned `r` has forwarded its arguments and got `r` -/
  rets : ∀ i < n, ∀ r, σ.pc i = Pc.done r →
    ∃ held, Event.call (E.dlsym p.fname) (args i) r held ∈ σ.mem.log
  /-- the events so far and the statements still to run are at most `6 * n` -/
  len : σ.mem.log.length + Finset.sum (Finset.range n) (fun j => (σ.pc j).rank) ≤ 6 * n

/-- The scenario after an interleaving: `n` threads enter `operator()` of
`self` at once from the load-time state and run as the schedule picks them. -/
def Sys.run (E : Env W A R) (self : Proxy) (args : Nat → A) (n : Nat) (w : W)
    (sched : List Nat) : Sys W A R :=
  Sys.exec E self args sched (Sys.init n w)

/-- One thread alone in `operator()`, from the shared state `s`. -/
def Sys.solo (s : State W A R) : Sys W A R :=
  { n := 1, mem := s, pc := fun _ => Pc.atLock, exited := none, holder := none }

/-- What holds of the mutex in every state that `n` threads reach from
`Sys.init`, whatever the lookup returns. -/
structure Sys.Owner (n : Nat) (σ : Sys W A R) : Prop where
  /-- the threads are the `n` threads -/
  n_eq : σ.n = n
  /-- the mutex is held exactly when a thread owns it -/
  agree : σ.mem.mutex = σ.holder.isSome
  /-- the owner is one of the threads -/
  inrange : ∀ i, σ.holder = some i → i < n
  /-- a thread owns the mutex exactly between its `lock()` and its `unlock()` -/
  owns : ∀ i < n, σ.holder = some i ↔ (σ.pc i).critical = true
  /-- every null test and every store so far was made with the mutex held -/
  accesses : ∀ e ∈ σ.mem.log, e.fptrAccessHeld = true

/-! # Properties -/

/-! ## The three paths of `operator()` -/

/-- Path with the pointer already cached: lock, test, unlock, call. -/
theorem operator_cached (E : Env W A R) (self : Proxy) (args : A) (s : State W A R)
    (h : s.fptr self ≠ 0) :
    DlsymFun.operator E self args s =
      (Outcome.returned (E.apply (s.fptr self) args s.world).1,
        { mutex := false, fptr := s.fptr,
          world := (E.apply (s.fptr self) args s.world).2,
          log := s.log ++ [Event.lock, Event.test self false true, Event.unlock,
            Event.call (s.fptr self) args (E.apply (s.fptr self) args s.world).1 false] }) := by
  simp [DlsymFun.operator, State.lock, State.test, State.emit, State.unlock,
    State.forward, h]

/-- Path with a successful lookup: lock, test, dlsym, store, unlock, call. -/
theorem operator_resolved (E : Env W A R) (self : Proxy) (args : A) (s : State W A R)
    (h : s.fptr self = 0) (hd : E.dlsym self.fname ≠ 0) :
    DlsymFun.operator E self args s =
      (Outcome.returned (E.apply (E.dlsym self.fname) args s.world).1,
        { mutex := false, fptr := Function.update s.fptr self (E.dlsym self.fname),
          world := (E.apply (E.dlsym self.fname) args s.world).2,
          log := s.log ++ [Event.lock, Event.test self true true,
            Event.dlsym self.fname (E.dlsym self.fname),
            Event.store self (E.dlsym self.fname) true, Event.unlock,
            Event.call (E.dlsym self.fname) args
              (E.apply (E.dlsym self.fname) args s.world).1 false] }) := by
  simp [DlsymFun.operator, State.lock, State.test, State.emit, State.unlock,
    State.forward, State.store, h, hd]

/-- Path with a failed lookup: lock, test, dlsym, perror, unlock, _exit. -/
theorem operator_fatal (E : Env W A R) (self : Proxy) (args : A) (s : State W A R)
    (h : s.fptr self = 0) (hd : E.dlsym self.fname = 0) :
    DlsymFun.operator E self args s =
      (Outcome.exited EXIT_FAILURE,
        { mutex := false, fptr := s.fptr, world := s.world,
          log := s.log ++ [Event.lock, Event.test self true true,
            Event.dlsym self.fname 0, Event.perror (diagnostic self), Event.unlock,
            Event.exit EXIT_FAILURE] }) := by
  simp [DlsymFun.operator, State.lock, State.test, State.emit, State.unlock, h, hd]

/-- The events of the cached path. -/
theorem events_cached (E : Env W A R) (self : Proxy) (args : A) (s : State W A R)
    (h : s.fptr self ≠ 0) :
    DlsymFun.events E self args s =
      [Event.lock, Event.test self false true, Event.unlock,
        Event.call (s.fptr self) args (E.apply (s.fptr self) args s.world).1 false] := by
  simp [DlsymFun.events, operator_cached E self args s h]

/-- The events of the resolving path. -/
theorem events_resolved (E : Env W A R) (self : Proxy) (args : A) (s : State W A R)
    (h : s.fptr self = 0) (hd : E.dlsym self.fname ≠ 0) :
    DlsymFun.events E self args s =
      [Event.lock, Event.test self true true,
        Event.dlsym self.fname (E.dlsym self.fname),
        Event.store self (E.dlsym self.fname) true, Event.unlock,
        Event.call (E.dlsym self.fname) args
          (E.apply (E.dlsym self.fname) args s.world).1 false] := by
  simp [DlsymFun.events, operator_resolved E self args s h hd]

/-- The events of the fatal path. -/
theorem events_fatal (E : Env W A R) (self : Proxy) (args : A) (s : State W A R)
    (h : s.fptr self = 0) (hd : E.dlsym self.fname = 0) :
    DlsymFun.events E self args s =
      [Event.lock, Event.test self true true, Event.dlsym self.fname 0,
        Event.perror (diagnostic self), Event.unlock, Event.exit EXIT_FAILURE] := by
  simp [DlsymFun.events, operator_fatal E self args s h hd]

/-- An invocation only appends to the log. -/
theorem log_eq_append_events (E : Env W A R) (self : Proxy) (args : A) (s : State W A R) :
    (DlsymFun.operator E self args s).2.log = s.log ++ DlsymFun.events E self args s := by
  by_cases h : s.fptr self = 0
  · by_cases hd : E.dlsym self.fname = 0
    · rw [events_fatal E self args s h hd, operator_fatal E self args s h hd]
    · rw [events_resolved E self args s h hd, operator_resolved E self args s h hd]
  · rw [events_cached E self args s h, operator_cached E self args s h]

/-- An invocation that forwards returns what the function at its target
returns. -/
theorem operator_outcome (E : Env W A R) (self : Proxy) (args : A) (s : State W A R)
    (h : s.fptr self ≠ 0 ∨ E.dlsym self.fname ≠ 0) :
    (DlsymFun.operator E self args s).1
      = Outcome.returned (E.apply (DlsymFun.target E self s) args s.world).1 := by
  by_cases h0 : s.fptr self = 0
  · have hd : E.dlsym self.fname ≠ 0 := h.resolve_left (fun hne => hne h0)
    simp [DlsymFun.target, h0, operator_resolved E self args s h0 hd]
  · simp [DlsymFun.target, h0, operator_cached E self args s h0]

/-! ## Single invocations -/

/-- C1 (transparency): in every state in which the pointer of the proxy is
cached or the lookup of its name succeeds, the invocation returns exactly the
value the genuine function (the one at the cached address, else at the address
the lookup returns) gives for the same arguments in the current system state,
leaves the system in the state that function leaves it in, and makes exactly
one forwarded call, with the arguments unchanged. -/
theorem transparency (E : Env W A R) (self : Proxy) (args : A) (s : State W A R)
    (h : s.fptr self ≠ 0 ∨ E.dlsym self.fname ≠ 0) :
    (DlsymFun.operator E self args s).1
        = Outcome.returned (E.apply (DlsymFun.target E self s) args s.world).1
      ∧ (DlsymFun.operator E self args s).2.world
        = (E.apply (DlsymFun.target E self s) args s.world).2
      ∧ (DlsymFun.events E self args s).filter Event.isCall
        = [Event.call (DlsymFun.target E self s) args
            (E.apply (DlsymFun.target E self s) args s.world).1 false]
      ∧ (s.fptr self = 0 → DlsymFun.target E self s = E.dlsym self.fname)
      ∧ (s.fptr self ≠ 0 → DlsymFun.target E self s = s.fptr self) := by
  by_cases h0 : s.fptr self = 0
  · have hd : E.dlsym self.fname ≠ 0 := by
      rcases h with h | h
      · exact absurd h0 h
      · exact h
    simp [DlsymFun.target, h0, operator_resolved E self args s h0 hd,
      events_resolved E self args s h0 hd, Event.isCall]
  · simp [DlsymFun.target, h0, operator_cached E self args s h0,
      events_cached E self args s h0, Event.isCall]

/-- The scenario of the specification: `real::close(7)` on the load-time
state looks up `close`, calls it with `7` and returns its result. -/
theorem transparency_witness :
    (demoInit.fptr Proxy.close ≠ 0 ∨ demoEnv.dlsym Proxy.close.fname ≠ 0)
      ∧ (DlsymFun.operator demoEnv Proxy.close [7] demoInit).1 = Outcome.returned (-1)
      ∧ (DlsymFun.events demoEnv Proxy.close [7] demoInit).filter Event.isCall
          = [Event.call 65 [7] (-1) false] :=
  ⟨by decide,
    (transparency demoEnv Proxy.close [7] demoInit (by decide)).1.trans (by decide),
    (transparency demoEnv Proxy.close [7] demoInit (by decide)).2.2.1.trans (by decide)⟩

/-- C3 (fatal on missing): when the cached pointer is null and the lookup
yields null, the invocation ends in `_exit(EXIT_FAILURE)`: it returns no
value, makes no forwarded call, looks the name up once, and leaves every
cached pointer, this one included, as it was (null); and an invocation ends
in a process exit only in that case. -/
theorem fatal_on_missing (E : Env W A R) (self : Proxy) (args : A) (s : State W A R) :
    (s.fptr self = 0 ∧ E.dlsym self.fname = 0 →
        (DlsymFun.operator E self args s).1 = Outcome.exited EXIT_FAILURE
        ∧ (DlsymFun.events E self args s).getLast? = some (Event.exit EXIT_FAILURE)
        ∧ (∀ r, (DlsymFun.operator E self args s).1 ≠ Outcome.returned r)
        ∧ (DlsymFun.events E self args s).countP Event.isCall = 0
        ∧ (DlsymFun.events E self args s).countP Event.isDlsym = 1
        ∧ (DlsymFun.operator E self args s).2.fptr = s.fptr
        ∧ (DlsymFun.operator E self args s).2.fptr self = 0)
      ∧ (∀ status, (DlsymFun.operator E self args s).1 = Outcome.exited status →
          s.fptr self = 0 ∧ E.dlsym self.fname = 0 ∧ status = EXIT_FAILURE) := by
  constructor
  · rintro ⟨h0, hd⟩
    simp [operator_fatal E self args s h0 hd, events_fatal E self args s h0 hd,
      Event.isCall, Event.isDlsym, h0]
  · intro status hs
    by_cases h0 : s.fptr self = 0
    · by_cases hd : E.dlsym self.fname = 0
      · rw [operator_fatal E self args s h0 hd] at hs
        simp at hs
        exact ⟨h0, hd, hs.symm⟩
      · rw [operator_resolved E self args s h0 hd] at hs
        simp at hs
    · rw [operator_cached E self args s h0] at hs
      simp at hs

/-- A concrete fatal invocation: `real::listen` where the loader has no
`listen`. -/
theorem fatal_on_missing_witness :
    (DlsymFun.operator demoEnv Proxy.listen [3, 5] demoInit).1 = Outcome.exited 1
      ∧ (DlsymFun.operator demoEnv Proxy.listen [3, 5] demoInit).2.fptr Proxy.listen = 0 :=
  ⟨((fatal_on_missing demoEnv Proxy.listen [3, 5] demoInit).1 (by decide)).1,
    ((fatal_on_missing demoEnv Proxy.listen [3, 5] demoInit).1 (by decide)).2.2.2.2.2.2⟩

/-- C4 (write-once): at load time every cached pointer is null; an
invocation of any proxy in any state leaves every non-null cached pointer
as it is; the only pointer it can change is its own, from null to the
non-null address the lookup returned; and every store it makes is made with
the mutex held. -/
theorem write_once (E : Env W A R) (self : Proxy) (args : A) (s : State W A R) :
    (∀ (w : W) (q : Proxy), (State.init w : State W A R).fptr q = 0)
      ∧ (∀ q, s.fptr q ≠ 0 → (DlsymFun.operator E self args s).2.fptr q = s.fptr q)
      ∧ (∀ q, (DlsymFun.operator E self args s).2.fptr q ≠ s.fptr q →
          q = self ∧ s.fptr q = 0
            ∧ (DlsymFun.operator E self args s).2.fptr q = E.dlsym self.fname
            ∧ E.dlsym self.fname ≠ 0
            ∧ Event.store self (E.dlsym self.fname) true ∈ DlsymFun.events E self args s)
      ∧ (∀ q addr held, Event.store q addr held ∈ DlsymFun.events E self args s →
          held = true ∧ q = self ∧ s.fptr self = 0 ∧ addr = E.dlsym self.fname ∧ addr ≠ 0) := by
  refine ⟨fun _ _ => rfl, ?_, ?_, ?_⟩
  · intro q hq
    by_cases h0 : s.fptr self = 0
    · by_cases hd : E.dlsym self.fname = 0
      · rw [operator_fatal E self args s h0 hd]
      · rw [operator_resolved E self args s h0 hd]
        have hne : q ≠ self := by
          rintro rfl
          exact hq h0
        simp [Function.update, hne]
    · rw [operator_cached E self args s h0]
  · intro q hq
    by_cases h0 : s.fptr self = 0
    · by_cases hd : E.dlsym self.fname = 0
      · rw [operator_fatal E self args s h0 hd] at hq
        exact absurd rfl hq
      · rw [operator_resolved E self args s h0 hd] at hq ⊢
        rw [events_resolved E self args s h0 hd]
        by_cases hqs : q = self
        · subst hqs
          simp [h0, hd]
        · simp [Function.update, hqs] at hq
    · rw [operator_cached E self args s h0] at hq
      exact absurd rfl hq
  · intro q addr held hmem
    by_cases h0 : s.fptr self = 0
    · by_cases hd : E.dlsym self.fname = 0
      · rw [events_fatal E self args s h0 hd] at hmem
        simp at hmem
      · rw [events_resolved E self args s h0 hd] at hmem
        simp at hmem
        obtain ⟨rfl, rfl, rfl⟩ := hmem
        exact ⟨rfl, rfl, h0, rfl, hd⟩
    · rw [events_cached E self args s h0] at hmem
      simp at hmem

/-- C6 (diagnostic): on a failed lookup the events are lock, test, dlsym,
then `perror` with exactly `"dlsym(" ++ name ++ ")"` for the name of the
invoked proxy, then unlock and `_exit`, so the one diagnostic precedes the
exit; an invocation with a cached pointer or a successful lookup emits no
diagnostic. -/
theorem diagnostic_on_failure (E : Env W A R) (self : Proxy) (args : A) (s : State W A R) :
    (s.fptr self = 0 ∧ E.dlsym self.fname = 0 →
        DlsymFun.events E self args s =
          [Event.lock, Event.test self true true, Event.dlsym self.fname 0,
            Event.perror ("dlsym(" ++ self.decl.object ++ ")"), Event.unlock,
            Event.exit EXIT_FAILURE])
      ∧ (s.fptr self ≠ 0 ∨ E.dlsym self.fname ≠ 0 →
          (DlsymFun.events E self args s).countP Event.isPerror = 0) := by
  constructor
  · rintro ⟨h0, hd⟩
    rw [events_fatal E self args s h0 hd]
    cases self <;> rfl
  · intro h
    by_cases h0 : s.fptr self = 0
    · have hd : E.dlsym self.fname ≠ 0 := by
        rcases h with h | h
        · exact absurd h0 h
        · exact h
      simp [events_resolved E self args s h0 hd, Event.isPerror]
    · simp [events_cached E self args s h0, Event.isPerror]

/-- A concrete failed lookup: the diagnostic of `real::listen` is
`dlsym(listen)`. -/
theorem diagnostic_on_failure_witness :
    DlsymFun.events demoEnv Proxy.listen [3, 5] demoInit =
      [Event.lock, Event.test Proxy.listen true true, Event.dlsym "listen" 0,
        Event.perror "dlsym(listen)", Event.unlock, Event.exit 1] :=
  ((diagnostic_on_failure demoEnv Proxy.listen [3, 5] demoInit).1 (by decide)).trans
    (by decide)

/-- C9, as stated, fails: in the invocation `real::close(7)` from the
load-time state the mutex is released before the forwarded call, which is
made with the mutex free. -/
theorem call_not_under_lock :
    DlsymFun.events demoEnv Proxy.close [7] demoInit =
        [Event.lock, Event.test Proxy.close true true, Event.dlsym "close" 65,
          Event.store Proxy.close 65 true, Event.unlock, Event.call 65 [7] (-1) false]
      ∧ (DlsymFun.events demoEnv Proxy.close [7] demoInit).any Event.callHeld = false := by
  decide

/-- C5, as stated, fails: after `real::socket(2, 1, 0)` the invocation
`real::close(3)` returns `0`, without it `-1`. -/
theorem later_result_depends_on_earlier_call :
    Proxy.socket ≠ Proxy.close
      ∧ (DlsymFun.operator demoEnv Proxy.close [3] demoInit).1 = Outcome.returned (-1)
      ∧ (DlsymFun.operator demoEnv Proxy.close [3]
          (DlsymFun.operator demoEnv Proxy.socket [2, 1, 0] demoInit).2).1
          = Outcome.returned 0 := by
  decide

/-- C5, amended: for distinct proxies `p` and `q`, invoking `p` leaves the
cached pointer of `q` unchanged; a later invocation of `q` forwards to, and
caches, the same address as if `p` had not been invoked, and ends in a
process exit exactly when it would have without `p`; the value it returns is
the result of the genuine function in the system state left by `p`, which is
the value it would have returned without `p` when `p` left the system state
as it was. -/
theorem independence (E : Env W A R) (p q : Proxy) (a b : A) (s : State W A R)
    (hpq : p ≠ q) :
    (DlsymFun.operator E p a s).2.fptr q = s.fptr q
      ∧ DlsymFun.target E q (DlsymFun.operator E p a s).2 = DlsymFun.target E q s
      ∧ (DlsymFun.operator E q b (DlsymFun.operator E p a s).2).2.fptr q
          = (DlsymFun.operator E q b s).2.fptr q
      ∧ (∀ status, (DlsymFun.operator E q b (DlsymFun.operator E p a s).2).1
            = Outcome.exited status ↔ (DlsymFun.operator E q b s).1 = Outcome.exited status)
      ∧ (s.fptr q ≠ 0 ∨ E.dlsym q.fname ≠ 0 →
          (DlsymFun.operator E q b (DlsymFun.operator E p a s).2).1
            = Outcome.returned
                (E.apply (DlsymFun.target E q s) b (DlsymFun.operator E p a s).2.world).1)
      ∧ ((DlsymFun.operator E p a s).2.world = s.world →
          (DlsymFun.operator E q b (DlsymFun.operator E p a s).2).1
            = (DlsymFun.operator E q b s).1) := by
  have hq : (DlsymFun.operator E p a s).2.fptr q = s.fptr q := by
    by_cases h0 : s.fptr p = 0
    · by_cases hd : E.dlsym p.fname = 0
      · rw [operator_fatal E p a s h0 hd]
      · rw [operator_resolved E p a s h0 hd]
        simp [Function.update, Ne.symm hpq]
    · rw [operator_cached E p a s h0]
  have ht : DlsymFun.target E q (DlsymFun.operator E p a s).2 = DlsymFun.target E q s := by
    simp [DlsymFun.target, hq]
  refine ⟨hq, ht, ?_, ?_, ?_, ?_⟩
  · by_cases h0 : s.fptr q = 0
    · have h0' : (DlsymFun.operator E p a s).2.fptr q = 0 := by rw [hq]; exact h0
      by_cases hd : E.dlsym q.fname = 0
      · rw [operator_fatal E q b s h0 hd, operator_fatal E q b _ h0' hd, h0', h0]
      · rw [operator_resolved E q b s h0 hd, operator_resolved E q b _ h0' hd]
        simp
    · have h0' : (DlsymFun.operator E p a s).2.fptr q ≠ 0 := by rw [hq]; exact h0
      rw [operator_cached E q b s h0, operator_cached E q b _ h0', hq]
  · intro status
    by_cases h0 : s.fptr q = 0
    · have h0' : (DlsymFun.operator E p a s).2.fptr q = 0 := by rw [hq]; exact h0
      by_cases hd : E.dlsym q.fname = 0
      · rw [operator_fatal E q b s h0 hd, operator_fatal E q b _ h0' hd]
      · rw [operator_resolved E q b s h0 hd, operator_resolved E q b _ h0' hd]
        simp
    · have h0' : (DlsymFun.operator E p a s).2.fptr q ≠ 0 := by rw [hq]; exact h0
      rw [operator_cached E q b s h0, operator_cached E q b _ h0']
      simp
  · intro h
    have h' : (DlsymFun.operator E p a s).2.fptr q ≠ 0 ∨ E.dlsym q.fname ≠ 0 := by
      rw [hq]; exact h
    rw [operator_outcome E q b _ h', ht]
  · intro hw
    by_cases h0 : s.fptr q = 0
    · have h0' : (DlsymFun.operator E p a s).2.fptr q = 0 := by rw [hq]; exact h0
      by_cases hd : E.dlsym q.fname = 0
      · rw [operator_fatal E q b s h0 hd, operator_fatal E q b _ h0' hd]
      · rw [operator_resolved E q b s h0 hd, operator_resolved E q b _ h0' hd, hw]
    · have h0' : (DlsymFun.operator E p a s).2.fptr q ≠ 0 := by rw [hq]; exact h0
      rw [operator_cached E q b s h0, operator_cached E q b _ h0', hq, hw]

/-- The amended C5 at `real::socket` and `real::close`: the address
`real::close` forwards to is the same after `real::socket(2, 1, 0)`. -/
theorem independence_witness :
    Proxy.socket ≠ Proxy.close
      ∧ DlsymFun.target demoEnv Proxy.close
          (DlsymFun.operator demoEnv Proxy.socket [2, 1, 0] demoInit).2
        = DlsymFun.target demoEnv Proxy.close demoInit :=
  ⟨by decide,
    (independence demoEnv Proxy.socket Proxy.close [2, 1, 0] [3] demoInit (by decide)).2.1⟩

/-! ## Sequences of invocations -/

/-- From a state in which the pointer is cached, every invocation of a
sequence completes, on the cached path, forwarding to the cached address. -/
theorem invocations_cached (E : Env W A R) (self : Proxy) (args : List A) (s : State W A R)
    (h : s.fptr self ≠ 0) :
    (invocations E self args s).length = args.length
      ∧ ∀ r ∈ invocations E self args s,
          r.pre.fptr self = s.fptr self
            ∧ r.events = [Event.lock, Event.test self false true, Event.unlock,
                Event.call (s.fptr self) r.args
                  (E.apply (s.fptr self) r.args r.pre.world).1 false] := by
  induction args generalizing s with
  | nil => simp [invocations]
  | cons a rest ih =>
    have hop := operator_cached E self a s h
    have hstep : invocations E self (a :: rest) s =
        { pre := s, args := a,
          outcome := Outcome.returned (E.apply (s.fptr self) a s.world).1,
          post := (DlsymFun.operator E self a s).2 }
          :: invocations E self rest (DlsymFun.operator E self a s).2 := by
      simp [invocations, hop]
    have hpost : (DlsymFun.operator E self a s).2.fptr self = s.fptr self := by
      rw [hop]
    have h2 : (DlsymFun.operator E self a s).2.fptr self ≠ 0 := by
      rw [hpost]; exact h
    obtain ⟨ihlen, ihall⟩ := ih (DlsymFun.operator E self a s).2 h2
    rw [hstep]
    refine ⟨by simp [ihlen], ?_⟩
    intro r hr
    rcases List.mem_cons.mp hr with rfl | hr
    · refine ⟨rfl, ?_⟩
      have := events_cached E self a s h
      simpa [Run.events, DlsymFun.events] using this
    · have := ihall r hr
      rw [hpost] at this
      exact this

/-- C2 (resolve-once): in any finite sequence of invocations of one proxy
from the load-time state, the lookup runs at most once in total; when there
is a first invocation the lookup runs in it, for the name of the proxy; every
later invocation runs no lookup and forwards, through the cached pointer, to
the address the first one obtained; and when that address is not null every
invocation of the sequence takes place. -/
theorem resolve_once (E : Env W A R) (self : Proxy) (args : List A) (w : W) :
    ((invocations E self args (State.init w)).map
        (fun r => r.events.countP Event.isDlsym)).sum ≤ 1
      ∧ (∀ r0 rest, invocations E self args (State.init w) = r0 :: rest →
          r0.events.countP Event.isDlsym = 1
            ∧ Event.dlsym self.fname (E.dlsym self.fname) ∈ r0.events
            ∧ ∀ r ∈ rest, r.events.countP Event.isDlsym = 0
                ∧ r.pre.fptr self = E.dlsym self.fname
                ∧ r.events.getLast? = some (Event.call (E.dlsym self.fname) r.args
                    (E.apply (E.dlsym self.fname) r.args r.pre.world).1 false))
      ∧ (E.dlsym self.fname ≠ 0 →
          (invocations E self args (State.init w)).length = args.length) := by
  cases args with
  | nil => simp [invocations]
  | cons a rest =>
    have h0 : (State.init w : State W A R).fptr self = 0 := rfl
    by_cases hd : E.dlsym self.fname = 0
    · have hop := operator_fatal E self a (State.init w) h0 hd
      have hstep : invocations E self (a :: rest) (State.init w) =
          [{ pre := State.init w, args := a, outcome := Outcome.exited EXIT_FAILURE,
             post := (DlsymFun.operator E self a (State.init w)).2 }] := by
        simp [invocations, hop]
      have hev : (DlsymFun.operator E self a (State.init w)).2.log.drop
          (State.init w : State W A R).log.length = _ := events_fatal E self a _ h0 hd
      rw [hstep]
      refine ⟨?_, ?_, fun h => absurd hd h⟩
      · simp [Run.events, hev, Event.isDlsym]
      · intro r0 tl heq
        simp only [List.cons.injEq] at heq
        obtain ⟨rfl, rfl⟩ := heq
        simp [Run.events, hev, Event.isDlsym, hd]
    · have hop := operator_resolved E self a (State.init w) h0 hd
      have hstep : invocations E self (a :: rest) (State.init w) =
          { pre := State.init w, args := a,
            outcome := Outcome.returned (E.apply (E.dlsym self.fname) a w).1,
            post := (DlsymFun.operator E self a (State.init w)).2 }
            :: invocations E self rest (DlsymFun.operator E self a (State.init w)).2 := by
        rw [invocations, hop]
        rfl
      have hev : (DlsymFun.operator E self a (State.init w)).2.log.drop
          (State.init w : State W A R).log.length = _ := events_resolved E self a _ h0 hd
      have hpost : (DlsymFun.operator E self a (State.init w)).2.fptr self
          = E.dlsym self.fname := by
        rw [hop]; simp
      have h2 : (DlsymFun.operator E self a (State.init w)).2.fptr self ≠ 0 := by
        rw [hpost]; exact hd
      obtain ⟨hlen, hall⟩ :=
        invocations_cached E self rest (DlsymFun.operator E self a (State.init w)).2 h2
      rw [hpost] at hall
      have hzero : ∀ r ∈ invocations E self rest (DlsymFun.operator E self a (State.init w)).2,
          r.events.countP Event.isDlsym = 0 := by
        intro r hr
        rw [(hall r hr).2]
        simp [Event.isDlsym]
      have hsum : ((invocations E self rest (DlsymFun.operator E self a (State.init w)).2).map
          (fun r => r.events.countP Event.isDlsym)).sum = 0 := by
        apply List.sum_eq_zero
        intro x hx
        obtain ⟨r, hr, rfl⟩ := List.mem_map.mp hx
        exact hzero r hr
      rw [hstep]
      refine ⟨?_, ?_, fun _ => by simp [hlen]⟩
      · rw [List.map_cons, List.sum_cons, hsum]
        simp [Run.events, hev, Event.isDlsym]
      · intro r0 tl heq
        simp only [List.cons.injEq] at heq
        obtain ⟨rfl, rfl⟩ := heq
        refine ⟨by simp [Run.events, hev, Event.isDlsym], by simp [Run.events, hev], ?_⟩
        intro r hr
        refine ⟨hzero r hr, (hall r hr).1, ?_⟩
        rw [(hall r hr).2]
        simp [(hall r hr).1]

/-- Three invocations of `real::close` from the load-time state: all three
take place, and the log holds one lookup. -/
theorem resolve_once_witness :
    demoEnv.dlsym Proxy.close.fname ≠ 0
      ∧ (invocations demoEnv Proxy.close [[7], [8], [9]] demoInit).length = 3
      ∧ ((invocations demoEnv Proxy.close [[7], [8], [9]] demoInit).map
          (fun r => r.events.countP Event.isDlsym)).sum ≤ 1 :=
  ⟨by decide,
    (resolve_once demoEnv Proxy.close [[7], [8], [9]] []).2.2 (by decide),
    (resolve_once demoEnv Proxy.close [[7], [8], [9]] []).1⟩

/-! ## The registry -/

/-- C7 (registry): without `SOCKET_ACTIVATION` the declared objects are
exactly the nine `accept`, `accept4`, `bind`, `close`, `connect`,
`getpeername`, `getsockname`, `setsockopt`, `socket`; with it they are those
nine and `listen`; the names are pairwise distinct; and the name a proxy
looks up, `fname`, is the name of the declared object, also in the `dlsym`
event of every invocation. -/
theorem registry_closed :
    (registry false).map (fun p => p.decl.object)
        = ["accept", "accept4", "bind", "close", "connect", "getpeername",
            "getsockname", "setsockopt", "socket"]
      ∧ (registry true).map (fun p => p.decl.object)
        = ["accept", "accept4", "bind", "close", "connect", "getpeername",
            "getsockname", "listen", "setsockopt", "socket"]
      ∧ (registry false).length = 9 ∧ (registry true).length = 10
      ∧ (∀ p, p ∈ registry true ↔ p ∈ registry false ∨ p = Proxy.listen)
      ∧ Proxy.listen ∉ registry false
      ∧ (∀ b, ((registry b).map Proxy.fname).Nodup)
      ∧ (∀ p q : Proxy, p.fname = q.fname → p = q)
      ∧ (∀ p : Proxy, p.fname = p.decl.object)
      ∧ (∀ (E : Env Unit Unit Unit) (self : Proxy) (s : State Unit Unit Unit) name result,
          Event.dlsym name result ∈ DlsymFun.events E self () s → name = self.decl.object) := by
  have hobj : ∀ p : Proxy, p.fname = p.decl.object := fun p => by cases p <;> rfl
  refine ⟨by decide, by decide, by decide, by decide, fun p => by cases p <;> decide,
    by decide, fun b => by cases b <;> decide,
    fun p q => by cases p <;> cases q <;> decide, hobj, ?_⟩
  intro E self s name result hmem
  have hname : self.fname = self.decl.object := hobj self
  by_cases h0 : s.fptr self = 0
  · by_cases hd : E.dlsym self.fname = 0
    · rw [events_fatal E self () s h0 hd] at hmem
      simp at hmem
      rw [hmem.1, hname]
    · rw [events_resolved E self () s h0 hd] at hmem
      simp at hmem
      rw [hmem.1, hname]
  · rw [events_cached E self () s h0] at hmem
    simp at hmem

/-! ## Threads -/

/-- Moving one thread changes the sum of the ranks by the change of its rank. -/
theorem rank_sum_update (pc : Nat → Pc R) (n i : Nat) (hi : i < n) (v : Pc R) :
    Finset.sum (Finset.range n) (fun j => (Function.update pc i v j).rank) + (pc i).rank
      = Finset.sum (Finset.range n) (fun j => (pc j).rank) + v.rank := by
  have hfun : (fun j => (Function.update pc i v j).rank)
      = Function.update (fun j => (pc j).rank) i v.rank := by
    funext j
    by_cases h : j = i
    · subst h; simp
    · simp [Function.update, h]
  have hmem : i ∈ Finset.range n := Finset.mem_range.mpr hi
  rw [hfun, Finset.sum_update_of_mem hmem, Finset.sdiff_singleton_eq_erase,
    ← Finset.add_sum_erase (Finset.range n) (fun j => (pc j).rank) hmem]
  omega

/-- The statements a thread can run, and what each does. -/
theorem step_cases (E : Env W A R) (self : Proxy) (args : Nat → A) (i : Nat)
    (σ τ : Sys W A R) (h : Sys.step E self args i σ = some τ) :
    i < σ.n ∧ σ.exited = none ∧
      ((σ.pc i = Pc.atLock ∧ σ.mem.mutex = false
          ∧ τ = { σ with mem := σ.mem.lock, pc := Function.update σ.pc i Pc.atTest,
                         holder := some i })
        ∨ (σ.pc i = Pc.atTest ∧ σ.mem.fptr self = 0
          ∧ τ = { σ with mem := σ.mem.test self, pc := Function.update σ.pc i Pc.atDlsym })
        ∨ (σ.pc i = Pc.atTest ∧ σ.mem.fptr self ≠ 0
          ∧ τ = { σ with mem := σ.mem.test self, pc := Function.update σ.pc i Pc.atUnlock })
        ∨ (σ.pc i = Pc.atDlsym ∧ E.dlsym self.fname = 0
          ∧ τ = { σ with mem := σ.mem.emit (Event.dlsym self.fname (E.dlsym self.fname)),
                         pc := Function.update σ.pc i Pc.atPerror })
        ∨ (σ.pc i = Pc.atDlsym ∧ E.dlsym self.fname ≠ 0
          ∧ τ = { σ with mem := σ.mem.emit (Event.dlsym self.fname (E.dlsym self.fname)),
                         pc := Function.update σ.pc i (Pc.atStore (E.dlsym self.fname)) })
        ∨ (σ.pc i = Pc.atPerror
          ∧ τ = { σ with mem := σ.mem.emit (Event.perror (diagnostic self)),
                         pc := Function.update σ.pc i Pc.atUnlockFatal })
        ∨ (σ.pc i = Pc.atUnlockFatal
          ∧ τ = { σ with mem := σ.mem.unlock, pc := Function.update σ.pc i Pc.atExit,
                         holder := none })
        ∨ (σ.pc i = Pc.atExit
          ∧ τ = { σ with mem := σ.mem.emit (Event.exit EXIT_FAILURE),
                         exited := some EXIT_FAILURE })
        ∨ (∃ result, σ.pc i = Pc.atStore result
          ∧ τ = { σ with mem := σ.mem.store self result,
                         pc := Function.update σ.pc i Pc.atUnlock })
        ∨ (σ.pc i = Pc.atUnlock
          ∧ τ = { σ with mem := σ.mem.unlock, pc := Function.update σ.pc i Pc.atCall,
                         holder := none })
        ∨ (σ.pc i = Pc.atCall
          ∧ τ = { σ with mem := (σ.mem.forward E self (args i)).2,
                         pc := Function.update σ.pc i
                           (Pc.done (E.apply (σ.mem.fptr self) (args i) σ.mem.world).1) })) := by
  unfold Sys.step at h
  split at h
  · exact absurd h (by simp)
  · rename_i hguard
    have hi : i < σ.n := by
      by_contra hc
      exact hguard (Or.inl (Nat.le_of_not_lt hc))
    have hex : σ.exited = none := by
      by_contra hc
      exact hguard (Or.inr hc)
    refine ⟨hi, hex, ?_⟩
    split at h
    · split at h
      · exact absurd h (by simp)
      · rename_i hpc hm
        simp only [Option.some.injEq] at h
        left
        exact ⟨hpc, by simpa using hm, h.symm⟩
    · rename_i hpc
      simp only [Option.some.injEq] at h
      by_cases h0 : σ.mem.fptr self = 0
      · simp only [h0, if_true] at h
        right
        left
        exact ⟨hpc, h0, h.symm⟩
      · simp only [h0, if_false] at h
        iterate 2 right
        left
        exact ⟨hpc, h0, h.symm⟩
    · rename_i hpc
      simp only [Option.some.injEq] at h
      by_cases hd : E.dlsym self.fname = 0
      · simp only [hd, if_true] at h
        iterate 3 right
        left
        exact ⟨hpc, hd, by rw [hd]; exact h.symm⟩
      · simp only [hd, if_false] at h
        iterate 4 right
        left
        exact ⟨hpc, hd, h.symm⟩
    · rename_i hpc
      simp only [Option.some.injEq] at h
      iterate 5 right
      left
      exact ⟨hpc, h.symm⟩
    · rename_i hpc
      simp only [Option.some.injEq] at h
      iterate 6 right
      left
      exact ⟨hpc, h.symm⟩
    · rename_i hpc
      simp only [Option.some.injEq] at h
      iterate 7 right
      left
      exact ⟨hpc, h.symm⟩
    · rename_i result hpc
      simp only [Option.some.injEq] at h
      iterate 8 right
      left
      exact ⟨result, hpc, h.symm⟩
    · rename_i hpc
      simp only [Option.some.injEq] at h
      iterate 9 right
      left
      exact ⟨hpc, h.symm⟩
    · rename_i hpc
      simp only [Option.some.injEq] at h
      iterate 10 right
      exact ⟨hpc, h.symm⟩
    · exact absurd h (by simp)

/-- What holds of every thread still holds after moving a thread to a
statement of which it holds. -/
theorem update_forall (Q : Nat → Pc R → Prop) (pc : Nat → Pc R) (n i : Nat) (v : Pc R)
    (hall : ∀ j < n, Q j (pc j)) (hv : Q i v) :
    ∀ j < n, Q j (Function.update pc i v j) := by
  intro j hj
  by_cases hji : j = i
  · subst hji; rw [Function.update_same]; exact hv
  · rw [Function.update_noteq hji]; exact hall j hj

/-- A property no thread has is not gained by moving a thread to a statement
without it. -/
theorem update_none (P : Pc R → Bool) (pc : Nat → Pc R) (n i : Nat) (v : Pc R)
    (hall : ∀ j < n, P (pc j) = false) (hv : P v = false) :
    ∀ j < n, P (Function.update pc i v j) = false := by
  intro j hj
  by_cases hji : j = i
  · subst hji; simpa using hv
  · rw [Function.update_noteq hji]; exact hall j hj

/-- A consequence of a property of the threads survives moving a thread to a
statement for which it holds. -/
theorem update_imp (P : Pc R → Bool) (Q : Prop) (pc : Nat → Pc R) (n i : Nat) (v : Pc R)
    (hall : ∀ j < n, P (pc j) = true → Q) (hv : P v = true → Q) :
    ∀ j < n, P (Function.update pc i v j) = true → Q := by
  intro j hj hP
  by_cases hji : j = i
  · subst hji; rw [Function.update_same] at hP; exact hv hP
  · rw [Function.update_noteq hji] at hP; exact hall j hj hP

/-- A thread with a property after a move is the moved thread or had it. -/
theorem update_exists (P : Pc R → Bool) (pc : Nat → Pc R) (n i : Nat) (v : Pc R)
    (hex : ∃ j < n, P (Function.update pc i v j) = true) :
    P v = true ∨ ∃ j < n, P (pc j) = true := by
  obtain ⟨j, hj, hP⟩ := hex
  by_cases hji : j = i
  · subst hji; rw [Function.update_same] at hP; exact Or.inl hP
  · rw [Function.update_noteq hji] at hP; exact Or.inr ⟨j, hj, hP⟩

/-- If no thread has a property after a move and the moved thread did not
have it, no thread had it. -/
theorem update_none_back (P : Pc R → Bool) (pc : Nat → Pc R) (n i : Nat) (v : Pc R)
    (hall : ∀ j < n, P (Function.update pc i v j) = false) (hold : P (pc i) = false) :
    ∀ j < n, P (pc j) = false := by
  intro j hj
  by_cases hji : j = i
  · subst hji; exact hold
  · have := hall j hj
    rwa [Function.update_noteq hji] at this

/-- A thread in the critical section holds the mutex and is the only one. -/
theorem critical_unique (E : Env W A R) (self : Proxy) (args : Nat → A) (n : Nat)
    (σ : Sys W A R) (hinv : Sys.Inv E self args n σ) (i : Nat) (hi : i < n)
    (hc : (σ.pc i).critical = true) :
    σ.mem.mutex = true ∧ ∀ j < n, (σ.pc j).critical = true → j = i := by
  have hm : σ.mem.mutex = true := by
    cases hmu : σ.mem.mutex with
    | true => rfl
    | false =>
      have := hinv.free hmu i hi
      rw [hc] at this
      exact absurd this (by simp)
  obtain ⟨k, _, _, huniq⟩ := hinv.held hm
  have hik : i = k := huniq i hi hc
  refine ⟨hm, fun j hj hcj => ?_⟩
  rw [hik]
  exact huniq j hj hcj

/-- Mutual exclusion after a thread moves inside the critical section. -/
theorem held_stay (pc : Nat → Pc R) (n i : Nat) (hi : i < n) (v : Pc R)
    (hv : v.critical = true) (huniq : ∀ j < n, (pc j).critical = true → j = i) :
    ∃ k < n, (Function.update pc i v k).critical = true
      ∧ ∀ j < n, (Function.update pc i v j).critical = true → j = k := by
  refine ⟨i, hi, by simpa using hv, fun j hj hcj => ?_⟩
  by_cases hji : j = i
  · exact hji
  · rw [Function.update_noteq hji] at hcj
    exact huniq j hj hcj

/-- No thread is in the critical section after the only one there leaves. -/
theorem free_leave (pc : Nat → Pc R) (n i : Nat) (v : Pc R)
    (hv : v.critical = false) (huniq : ∀ j < n, (pc j).critical = true → j = i) :
    ∀ j < n, (Function.update pc i v j).critical = false := by
  intro j hj
  by_cases hji : j = i
  · subst hji; simpa using hv
  · rw [Function.update_noteq hji]
    cases hcj : (pc j).critical with
    | false => rfl
    | true => exact absurd (huniq j hj hcj) hji

/-- Mutual exclusion after a thread moves outside the critical section. -/
theorem held_outside (pc : Nat → Pc R) (n i : Nat) (v : Pc R)
    (hold : (pc i).critical = false) (hv : v.critical = false)
    (hheld : ∃ k < n, (pc k).critical = true ∧ ∀ j < n, (pc j).critical = true → j = k) :
    ∃ k < n, (Function.update pc i v k).critical = true
      ∧ ∀ j < n, (Function.update pc i v j).critical = true → j = k := by
  obtain ⟨k, hk, hck, huniq⟩ := hheld
  have hki : k ≠ i := by
    rintro rfl
    rw [hold] at hck
    exact absurd hck (by simp)
  refine ⟨k, hk, by rw [Function.update_noteq hki]; exact hck, fun j hj hcj => ?_⟩
  by_cases hji : j = i
  · subst hji
    rw [Function.update_same, hv] at hcj
    exact absurd hcj (by simp)
  · rw [Function.update_noteq hji] at hcj
    exact huniq j hj hcj

/-- A thread about to store is in the critical section. -/
theorem storing_critical (c : Pc R) (h : c.storing = true) : c.critical = true := by
  cases c <;> simp_all [Pc.storing, Pc.critical]

/-- A thread between null test and store is in the critical section. -/
theorem resolving_critical (c : Pc R) (h : c.resolving = true) : c.critical = true := by
  cases c <;> simp_all [Pc.resolving, Pc.critical]

/-- The lookup count is kept by an event that is no lookup and a move that
involves no store. -/
theorem count_frame (log : List (Event A R)) (e : Event A R) (he : e.isDlsym = false)
    (pc : Nat → Pc R) (n i : Nat) (v : Pc R) (f : Nat)
    (hold : (pc i).storing = false) (hv : v.storing = false)
    (c0 : f = 0 → (∀ j < n, (pc j).storing = false) → log.countP Event.isDlsym = 0)
    (c1 : (f ≠ 0 ∨ ∃ j < n, (pc j).storing = true) → log.countP Event.isDlsym = 1) :
    (f = 0 → (∀ j < n, (Function.update pc i v j).storing = false) →
        (log ++ [e]).countP Event.isDlsym = 0)
      ∧ ((f ≠ 0 ∨ ∃ j < n, (Function.update pc i v j).storing = true) →
        (log ++ [e]).countP Event.isDlsym = 1) := by
  constructor
  · intro hf hall
    have := c0 hf (update_none_back Pc.storing pc n i v hall hold)
    simp [List.countP_append, this, he]
  · intro hor
    have hor' : f ≠ 0 ∨ ∃ j < n, (pc j).storing = true := by
      rcases hor with hf | hex
      · exact Or.inl hf
      · rcases update_exists Pc.storing pc n i v hex with h | h
        · rw [hv] at h; exact absurd h (by simp)
        · exact Or.inr h
    have := c1 hor'
    simp [List.countP_append, this, he]

/-- The targets of the forwarded calls are kept by an event that is no call. -/
theorem calls_frame (log : List (Event A R)) (e : Event A R) (he : e.isCall = false) (d : Nat)
    (hc : ∀ x ∈ log, x.isCall = true → ∃ a r held, x = Event.call d a r held) :
    ∀ x ∈ log ++ [e], x.isCall = true → ∃ a r held, x = Event.call d a r held := by
  intro x hx hcall
  rcases List.mem_append.mp hx with hx | hx
  · exact hc x hx hcall
  · rw [List.mem_singleton.mp hx, he] at hcall
    exact absurd hcall (by simp)

/-- The calls of the returned threads stay in the log when a thread moves to
a statement other than the return. -/
theorem rets_frame (log : List (Event A R)) (e : Event A R) (d : Nat) (args : Nat → A)
    (pc : Nat → Pc R) (n i : Nat) (v : Pc R) (hv : v.returned = false)
    (hr : ∀ j < n, ∀ r, pc j = Pc.done r → ∃ held, Event.call d (args j) r held ∈ log) :
    ∀ j < n, ∀ r, Function.update pc i v j = Pc.done r →
      ∃ held, Event.call d (args j) r held ∈ log ++ [e] := by
  refine update_forall (fun j c => ∀ r, c = Pc.done r →
    ∃ held, Event.call d (args j) r held ∈ log ++ [e]) pc n i v ?_ ?_
  · intro j hj r hpc
    obtain ⟨held, hmem⟩ := hr j hj r hpc
    exact ⟨held, List.mem_append_left _ hmem⟩
  · intro r hvr
    rw [hvr] at hv
    exact absurd hv (by simp [Pc.returned])

/-- One event more and a smaller rank for the moved thread keep the bound. -/
theorem len_frame (log : List (Event A R)) (e : Event A R) (pc : Nat → Pc R) (n i : Nat)
    (hi : i < n) (v : Pc R) (k : Nat) (hrank : v.rank < (pc i).rank)
    (hlen : log.length + Finset.sum (Finset.range n) (fun j => (pc j).rank) ≤ k) :
    (log ++ [e]).length
      + Finset.sum (Finset.range n) (fun j => (Function.update pc i v j).rank) ≤ k := by
  have hsum := rank_sum_update pc n i hi v
  simp only [List.length_append, List.length_singleton]
  omega

/-- One statement of one thread preserves the invariant. -/
theorem inv_step (E : Env W A R) (self : Proxy) (args : Nat → A) (n : Nat)
    (hd : E.dlsym self.fname ≠ 0) (i : Nat) (σ τ : Sys W A R)
    (hinv : Sys.Inv E self args n σ) (h : Sys.step E self args i σ = some τ) :
    Sys.Inv E self args n τ := by
  obtain ⟨hi, -, hcase⟩ := step_cases E self args i σ τ h
  rw [hinv.n_eq] at hi
  have hnf := hinv.nofatal i hi
  rcases hcase with ⟨hpc, hm, rfl⟩ | ⟨hpc, h0, rfl⟩ | ⟨hpc, h0, rfl⟩ | ⟨hpc, hz, rfl⟩
    | ⟨hpc, -, rfl⟩ | ⟨hpc, rfl⟩ | ⟨hpc, rfl⟩ | ⟨hpc, rfl⟩ | ⟨r, hpc, rfl⟩ | ⟨hpc, rfl⟩
    | ⟨hpc, rfl⟩
  · -- line 32: lock
    have hfree := hinv.free hm
    have hcnt := count_frame σ.mem.log Event.lock rfl σ.pc n i Pc.atTest (σ.mem.fptr self)
      (by rw [hpc]; rfl) rfl hinv.count0 hinv.count1
    exact
      { n_eq := hinv.n_eq
        alive := hinv.alive
        nofatal := update_none Pc.fatal σ.pc n i _ hinv.nofatal rfl
        store_val := update_forall (fun _ c => ∀ r, c = Pc.atStore r → r = E.dlsym self.fname)
          σ.pc n i _ hinv.store_val (by simp)
        free := fun hm' => by simp [State.lock] at hm'
        held := fun _ => ⟨i, hi, by simp [Pc.critical],
          fun j hj hcj => by
            by_cases hji : j = i
            · exact hji
            · dsimp only at hcj
              rw [Function.update_noteq hji, hfree j hj] at hcj
              exact absurd hcj (by simp)⟩
        ptr := hinv.ptr
        ptr_resolved :=
          update_imp Pc.resolved _ σ.pc n i _ hinv.ptr_resolved (by simp [Pc.resolved])
        ptr_resolving :=
          update_imp Pc.resolving _ σ.pc n i _ hinv.ptr_resolving (by simp [Pc.resolving])
        count0 := hcnt.1
        count1 := hcnt.2
        calls := calls_frame σ.mem.log Event.lock rfl _ hinv.calls
        rets := rets_frame σ.mem.log Event.lock _ args σ.pc n i _ rfl hinv.rets
        len := len_frame σ.mem.log Event.lock σ.pc n i hi _ _
          (by rw [hpc]; simp [Pc.rank]) hinv.len }
  · -- line 33: the pointer is null
    obtain ⟨hmu, huniq⟩ := critical_unique E self args n σ hinv i hi (by rw [hpc]; rfl)
    have hcnt := count_frame σ.mem.log (Event.test self (decide (σ.mem.fptr self = 0))
      σ.mem.mutex) rfl σ.pc n i Pc.atDlsym (σ.mem.fptr self)
      (by rw [hpc]; rfl) rfl hinv.count0 hinv.count1
    exact
      { n_eq := hinv.n_eq
        alive := hinv.alive
        nofatal := update_none Pc.fatal σ.pc n i _ hinv.nofatal rfl
        store_val := update_forall (fun _ c => ∀ r, c = Pc.atStore r → r = E.dlsym self.fname)
          σ.pc n i _ hinv.store_val (by simp)
        free := fun hm' => by simp [State.test, State.emit, hmu] at hm'
        held := fun _ => held_stay σ.pc n i hi _ rfl huniq
        ptr := hinv.ptr
        ptr_resolved :=
          update_imp Pc.resolved _ σ.pc n i _ hinv.ptr_resolved (by simp [Pc.resolved])
        ptr_resolving := update_imp Pc.resolving _ σ.pc n i _ hinv.ptr_resolving (fun _ => h0)
        count0 := hcnt.1
        count1 := hcnt.2
        calls := calls_frame σ.mem.log
          (Event.test self (decide (σ.mem.fptr self = 0)) σ.mem.mutex) rfl _ hinv.calls
        rets := rets_frame σ.mem.log _ _ args σ.pc n i _ rfl hinv.rets
        len := len_frame σ.mem.log _ σ.pc n i hi _ _
          (by rw [hpc]; simp [Pc.rank]) hinv.len }
  · -- line 33: the pointer is cached
    obtain ⟨hmu, huniq⟩ := critical_unique E self args n σ hinv i hi (by rw [hpc]; rfl)
    have hcnt := count_frame σ.mem.log (Event.test self (decide (σ.mem.fptr self = 0))
      σ.mem.mutex) rfl σ.pc n i Pc.atUnlock (σ.mem.fptr self)
      (by rw [hpc]; rfl) rfl hinv.count0 hinv.count1
    exact
      { n_eq := hinv.n_eq
        alive := hinv.alive
        nofatal := update_none Pc.fatal σ.pc n i _ hinv.nofatal rfl
        store_val := update_forall (fun _ c => ∀ r, c = Pc.atStore r → r = E.dlsym self.fname)
          σ.pc n i _ hinv.store_val (by simp)
        free := fun hm' => by simp [State.test, State.emit, hmu] at hm'
        held := fun _ => held_stay σ.pc n i hi _ rfl huniq
        ptr := hinv.ptr
        ptr_resolved := update_imp Pc.resolved _ σ.pc n i _ hinv.ptr_resolved
          (fun _ => hinv.ptr.resolve_left h0)
        ptr_resolving :=
          update_imp Pc.resolving _ σ.pc n i _ hinv.ptr_resolving (by simp [Pc.resolving])
        count0 := hcnt.1
        count1 := hcnt.2
        calls := calls_frame σ.mem.log
          (Event.test self (decide (σ.mem.fptr self = 0)) σ.mem.mutex) rfl _ hinv.calls
        rets := rets_frame σ.mem.log _ _ args σ.pc n i _ rfl hinv.rets
        len := len_frame σ.mem.log _ σ.pc n i hi _ _
          (by rw [hpc]; simp [Pc.rank]) hinv.len }
  · -- lines 34-35 with a null result: excluded
    exact absurd hz hd
  · -- lines 34-35: the lookup
    obtain ⟨hmu, huniq⟩ := critical_unique E self args n σ hinv i hi (by rw [hpc]; rfl)
    have hp0 : σ.mem.fptr self = 0 := hinv.ptr_resolving i hi (by rw [hpc]; rfl)
    have hnostore : ∀ j < n, (σ.pc j).storing = false := by
      intro j hj
      cases hs : (σ.pc j).storing with
      | false => rfl
      | true =>
        have hji := huniq j hj (storing_critical _ hs)
        rw [hji, hpc] at hs
        exact absurd hs (by simp [Pc.storing])
    have hzero := hinv.count0 hp0 hnostore
    exact
      { n_eq := hinv.n_eq
        alive := hinv.alive
        nofatal := update_none Pc.fatal σ.pc n i _ hinv.nofatal rfl
        store_val := update_forall (fun _ c => ∀ r, c = Pc.atStore r → r = E.dlsym self.fname)
          σ.pc n i _ hinv.store_val (fun r hr => by injection hr with hr; exact hr.symm)
        free := fun hm' => by simp [State.emit, hmu] at hm'
        held := fun _ => held_stay σ.pc n i hi _ rfl huniq
        ptr := hinv.ptr
        ptr_resolved :=
          update_imp Pc.resolved _ σ.pc n i _ hinv.ptr_resolved (by simp [Pc.resolved])
        ptr_resolving := update_imp Pc.resolving _ σ.pc n i _ hinv.ptr_resolving (fun _ => hp0)
        count0 := fun _ hall => by
          have := hall i hi
          simp [Pc.storing] at this
        count1 := fun _ => by
          simp [State.emit, List.countP_append, hzero, Event.isDlsym]
        calls := calls_frame σ.mem.log
          (Event.dlsym self.fname (E.dlsym self.fname)) rfl _ hinv.calls
        rets := rets_frame σ.mem.log _ _ args σ.pc n i _ rfl hinv.rets
        len := len_frame σ.mem.log _ σ.pc n i hi _ _
          (by rw [hpc]; simp [Pc.rank]) hinv.len }
  · -- lines 36-37: excluded
    rw [hpc] at hnf; simp [Pc.fatal] at hnf
  · -- line 38: excluded
    rw [hpc] at hnf; simp [Pc.fatal] at hnf
  · -- line 39: excluded
    rw [hpc] at hnf; simp [Pc.fatal] at hnf
  · -- line 41: the store
    obtain ⟨hmu, huniq⟩ := critical_unique E self args n σ hinv i hi (by rw [hpc]; rfl)
    have hr : r = E.dlsym self.fname := hinv.store_val i hi r hpc
    have hnew : (σ.mem.store self r).fptr self = E.dlsym self.fname := by
      simp [State.store, hr]
    have hone := hinv.count1 (Or.inr ⟨i, hi, by rw [hpc]; rfl⟩)
    exact
      { n_eq := hinv.n_eq
        alive := hinv.alive
        nofatal := update_none Pc.fatal σ.pc n i _ hinv.nofatal rfl
        store_val := update_forall (fun _ c => ∀ r, c = Pc.atStore r → r = E.dlsym self.fname)
          σ.pc n i _ hinv.store_val (by simp)
        free := fun hm' => by simp [State.store, hmu] at hm'
        held := fun _ => held_stay σ.pc n i hi _ rfl huniq
        ptr := Or.inr hnew
        ptr_resolved := fun _ _ _ => hnew
        ptr_resolving := fun j hj hres => by
          exfalso
          by_cases hji : j = i
          · subst hji
            simp [Pc.resolving] at hres
          · dsimp only at hres
            rw [Function.update_noteq hji] at hres
            exact hji (huniq j hj (resolving_critical _ hres))
        count0 := fun hp _ => by
          rw [hnew] at hp
          exact absurd hp hd
        count1 := fun _ => by
          simp [State.store, List.countP_append, hone, Event.isDlsym]
        calls := calls_frame σ.mem.log
          (Event.store self r σ.mem.mutex) rfl _ hinv.calls
        rets := rets_frame σ.mem.log _ _ args σ.pc n i _ rfl hinv.rets
        len := len_frame σ.mem.log _ σ.pc n i hi _ _
          (by rw [hpc]; simp [Pc.rank]) hinv.len }
  · -- line 43: unlock
    obtain ⟨hmu, huniq⟩ := critical_unique E self args n σ hinv i hi (by rw [hpc]; rfl)
    have hcnt := count_frame σ.mem.log Event.unlock rfl σ.pc n i Pc.atCall (σ.mem.fptr self)
      (by rw [hpc]; rfl) rfl hinv.count0 hinv.count1
    exact
      { n_eq := hinv.n_eq
        alive := hinv.alive
        nofatal := update_none Pc.fatal σ.pc n i _ hinv.nofatal rfl
        store_val := update_forall (fun _ c => ∀ r, c = Pc.atStore r → r = E.dlsym self.fname)
          σ.pc n i _ hinv.store_val (by simp)
        free := fun _ => free_leave σ.pc n i _ rfl huniq
        held := fun hm' => by simp [State.unlock] at hm'
        ptr := hinv.ptr
        ptr_resolved := update_imp Pc.resolved _ σ.pc n i _ hinv.ptr_resolved
          (fun _ => hinv.ptr_resolved i hi (by rw [hpc]; rfl))
        ptr_resolving :=
          update_imp Pc.resolving _ σ.pc n i _ hinv.ptr_resolving (by simp [Pc.resolving])
        count0 := hcnt.1
        count1 := hcnt.2
        calls := calls_frame σ.mem.log Event.unlock rfl _ hinv.calls
        rets := rets_frame σ.mem.log Event.unlock _ args σ.pc n i _ rfl hinv.rets
        len := len_frame σ.mem.log Event.unlock σ.pc n i hi _ _
          (by rw [hpc]; simp [Pc.rank]) hinv.len }
  · -- line 44: the forwarded call
    have hp : σ.mem.fptr self = E.dlsym self.fname :=
      hinv.ptr_resolved i hi (by rw [hpc]; rfl)
    have hcnt := count_frame σ.mem.log
      (Event.call (σ.mem.fptr self) (args i)
        (E.apply (σ.mem.fptr self) (args i) σ.mem.world).1 σ.mem.mutex) rfl σ.pc n i
      (Pc.done (E.apply (σ.mem.fptr self) (args i) σ.mem.world).1) (σ.mem.fptr self)
      (by rw [hpc]; rfl) rfl hinv.count0 hinv.count1
    exact
      { n_eq := hinv.n_eq
        alive := hinv.alive
        nofatal := update_none Pc.fatal σ.pc n i _ hinv.nofatal rfl
        store_val := update_forall (fun _ c => ∀ r, c = Pc.atStore r → r = E.dlsym self.fname)
          σ.pc n i _ hinv.store_val (by simp)
        free := fun hm' => update_none Pc.critical σ.pc n i _ (hinv.free hm') rfl
        held := fun hm' => held_outside σ.pc n i _ (by rw [hpc]; rfl) rfl (hinv.held hm')
        ptr := hinv.ptr
        ptr_resolved := fun _ _ _ => hp
        ptr_resolving :=
          update_imp Pc.resolving _ σ.pc n i _ hinv.ptr_resolving (by simp [Pc.resolving])
        count0 := hcnt.1
        count1 := hcnt.2
        calls := fun x hx hcall => by
          rcases List.mem_append.mp hx with hx | hx
          · exact hinv.calls x hx hcall
          · rw [List.mem_singleton.mp hx, hp]
            exact ⟨_, _, _, rfl⟩
        rets := update_forall (fun j c => ∀ r, c = Pc.done r →
            ∃ held, Event.call (E.dlsym self.fname) (args j) r held
              ∈ (σ.mem.forward E self (args i)).2.log) σ.pc n i _
          (fun j hj r hpcj => by
            obtain ⟨held, hmem⟩ := hinv.rets j hj r hpcj
            exact ⟨held, List.mem_append_left _ hmem⟩)
          (fun r hr => by
            injection hr with hr
            refine ⟨σ.mem.mutex, List.mem_append_right _ ?_⟩
            rw [← hr, hp]
            exact List.mem_singleton.mpr rfl)
        len := len_frame σ.mem.log _ σ.pc n i hi _ _
          (by rw [hpc]; simp [Pc.rank]) hinv.len }

/-- The invariant holds when the threads enter. -/
theorem inv_init (E : Env W A R) (self : Proxy) (args : Nat → A) (n : Nat) (w : W) :
    Sys.Inv E self args n (Sys.init n w) :=
  { n_eq := rfl
    alive := rfl
    nofatal := fun _ _ => rfl
    store_val := fun _ _ r hr => by simp [Sys.init] at hr
    free := fun _ _ _ => rfl
    held := fun hm => by simp [Sys.init, State.init] at hm
    ptr := Or.inl rfl
    ptr_resolved := fun _ _ hr => by simp [Sys.init, Pc.resolved] at hr
    ptr_resolving := fun _ _ _ => rfl
    count0 := fun _ _ => rfl
    count1 := fun hor => by
      rcases hor with hp | ⟨j, _, hs⟩
      · exact absurd rfl hp
      · simp [Sys.init, Pc.storing] at hs
    calls := fun e he => by simp [Sys.init, State.init] at he
    rets := fun _ _ r hr => by simp [Sys.init] at hr
    len := by simp [Sys.init, State.init, Pc.rank, Nat.mul_comm] }

/-- The invariant holds after every interleaving. -/
theorem inv_exec (E : Env W A R) (self : Proxy) (args : Nat → A) (n : Nat)
    (hd : E.dlsym self.fname ≠ 0) (sched : List Nat) (σ : Sys W A R)
    (hinv : Sys.Inv E self args n σ) :
    Sys.Inv E self args n (Sys.exec E self args sched σ) := by
  induction sched generalizing σ with
  | nil => exact hinv
  | cons i rest ih =>
    rw [Sys.exec]
    cases hstep : Sys.step E self args i σ with
    | none => exact ih σ hinv
    | some τ => exact ih τ (inv_step E self args n hd i σ τ hinv hstep)

/-- Every statement appends exactly one event. -/
theorem step_log_length (E : Env W A R) (self : Proxy) (args : Nat → A) (i : Nat)
    (σ τ : Sys W A R) (h : Sys.step E self args i σ = some τ) :
    τ.mem.log.length = σ.mem.log.length + 1 := by
  obtain ⟨-, -, hcase⟩ := step_cases E self args i σ τ h
  rcases hcase with c | c | c | c | c | c | c | c | c | c | c
  all_goals obtain ⟨_, _, rfl⟩ := c
  all_goals
    simp [State.lock, State.test, State.emit, State.unlock, State.store, State.forward]

/-- Running one schedule after another. -/
theorem exec_append (E : Env W A R) (self : Proxy) (args : Nat → A) (s1 s2 : List Nat)
    (σ : Sys W A R) :
    Sys.exec E self args (s1 ++ s2) σ = Sys.exec E self args s2 (Sys.exec E self args s1 σ) := by
  induction s1 generalizing σ with
  | nil => rfl
  | cons i rest ih =>
    rw [List.cons_append, Sys.exec, Sys.exec]
    cases Sys.step E self args i σ with
    | none => exact ih σ
    | some τ => exact ih τ

/-- No deadlock: when no thread can run, every thread has returned. -/
theorem stuck_all_returned (E : Env W A R) (self : Proxy) (args : Nat → A) (n : Nat)
    (σ : Sys W A R) (hinv : Sys.Inv E self args n σ)
    (hstuck : ∀ i < n, Sys.step E self args i σ = none) :
    ∀ i < n, (σ.pc i).returned = true := by
  have hguard : ∀ i < n, ¬ (σ.n ≤ i ∨ σ.exited ≠ none) := by
    intro i hi hor
    rcases hor with h | h
    · rw [hinv.n_eq] at h; omega
    · exact h hinv.alive
  -- a thread in the critical section can always run
  have hcrit : ∀ k < n, (σ.pc k).critical = false := by
    intro k hk
    have hs := hstuck k hk
    unfold Sys.step at hs
    rw [if_neg (hguard k hk)] at hs
    cases hpc : σ.pc k <;> rw [hpc] at hs <;> simp [Pc.critical] at hs ⊢
  have hmu : σ.mem.mutex = false := by
    cases hm : σ.mem.mutex with
    | false => rfl
    | true =>
      obtain ⟨k, hk, hck, -⟩ := hinv.held hm
      rw [hcrit k hk] at hck
      exact absurd hck (by simp)
  intro i hi
  have hs := hstuck i hi
  unfold Sys.step at hs
  rw [if_neg (hguard i hi)] at hs
  cases hpc : σ.pc i <;> rw [hpc] at hs <;> simp [Pc.returned, hmu] at hs ⊢

/-- Every reachable state can be run to a state in which no thread can run. -/
theorem can_complete (E : Env W A R) (self : Proxy) (args : Nat → A) (n : Nat)
    (hd : E.dlsym self.fname ≠ 0) (k : Nat) (σ : Sys W A R)
    (hinv : Sys.Inv E self args n σ) (hk : 6 * n - σ.mem.log.length ≤ k) :
    ∃ more, ∀ i < n, Sys.step E self args i (Sys.exec E self args more σ) = none := by
  induction k generalizing σ with
  | zero =>
    refine ⟨[], fun i _ => ?_⟩
    cases hstep : Sys.step E self args i σ with
    | none => exact hstep
    | some τ =>
      have hlen := step_log_length E self args i σ τ hstep
      have hbound := (inv_step E self args n hd i σ τ hinv hstep).len
      omega
  | succ k ih =>
    by_cases hstuck : ∀ i < n, Sys.step E self args i σ = none
    · exact ⟨[], hstuck⟩
    · push_neg at hstuck
      obtain ⟨i, -, hne⟩ := hstuck
      obtain ⟨τ, hstep⟩ := Option.ne_none_iff_exists'.mp hne
      have hlen := step_log_length E self args i σ τ hstep
      have hinv' := inv_step E self args n hd i σ τ hinv hstep
      obtain ⟨more, hmore⟩ := ih τ hinv' (by omega)
      refine ⟨i :: more, ?_⟩
      rw [Sys.exec, hstep]
      exact hmore

/-- One thread alone, from a state with the mutex free, does what the body of
`operator()` does: the same final memory, system state and log, the same
returned value, the same exit. -/
theorem solo_eq_operator (E : Env W A R) (self : Proxy) (a : A) (s : State W A R)
    (hfree : s.mutex = false) :
    (Sys.exec E self (fun _ => a) (List.replicate 6 0) (Sys.solo s)).mem
        = (DlsymFun.operator E self a s).2
      ∧ (∀ r, (DlsymFun.operator E self a s).1 = Outcome.returned r →
          (Sys.exec E self (fun _ => a) (List.replicate 6 0) (Sys.solo s)).pc 0 = Pc.done r)
      ∧ (∀ c, (DlsymFun.operator E self a s).1 = Outcome.exited c →
          (Sys.exec E self (fun _ => a) (List.replicate 6 0) (Sys.solo s)).exited = some c) := by
  by_cases h0 : s.fptr self = 0
  · by_cases hd : E.dlsym self.fname = 0
    · rw [operator_fatal E self a s h0 hd]
      simp [Sys.exec, Sys.step, Sys.solo, List.replicate, hfree, h0, hd, State.lock,
        State.test, State.emit, State.unlock]
    · rw [operator_resolved E self a s h0 hd]
      simp [Sys.exec, Sys.step, Sys.solo, List.replicate, hfree, h0, hd, State.lock,
        State.test, State.emit, State.unlock, State.store, State.forward]
  · rw [operator_cached E self a s h0]
    simp [Sys.exec, Sys.step, Sys.solo, List.replicate, hfree, h0, State.lock,
      State.test, State.emit, State.unlock, State.forward]

/-- C8, as stated, fails when the name cannot be resolved: of eight threads
in `real::listen`, thread 0 finds no `listen`, reports and releases the
mutex; before it reaches `_exit`, thread 1 acquires the mutex and looks the
name up again; then thread 0 ends the process. Two lookups have run and no
call has completed. -/
theorem second_lookup_before_exit :
    (Sys.run demoEnv Proxy.listen demoArgs 8 [] [0, 0, 0, 0, 0, 1, 1, 1, 0]).mem.log
        = [Event.lock, Event.test Proxy.listen true true, Event.dlsym "listen" 0,
            Event.perror "dlsym(listen)", Event.unlock,
            Event.lock, Event.test Proxy.listen true true, Event.dlsym "listen" 0,
            Event.exit 1]
      ∧ (Sys.run demoEnv Proxy.listen demoArgs 8 []
          [0, 0, 0, 0, 0, 1, 1, 1, 0]).mem.log.countP Event.isDlsym = 2
      ∧ (Sys.run demoEnv Proxy.listen demoArgs 8 [] [0, 0, 0, 0, 0, 1, 1, 1, 0]).exited
          = some EXIT_FAILURE
      ∧ ∀ i < 8, ((Sys.run demoEnv Proxy.listen demoArgs 8 []
          [0, 0, 0, 0, 0, 1, 1, 1, 0]).pc i).returned = false := by
  decide

/-- C8, amended: when `n` threads, `n` at least one and so also `n` at least
eight, enter `operator()` of the same unresolved proxy at once and the lookup
of its name does not return null, then after every interleaving: at most one
lookup has run; the process has not exited; every forwarded call went to the
address the lookup returns; at most `6 * n` statements have run, each
appending one event; the interleaving can be continued until no thread can
run; and whenever no thread can run, exactly one lookup has run, the cached
pointer is the address the lookup returns, and each thread has returned the
result of a forwarded call to that address with its own arguments. -/
theorem concurrent_resolve_once (E : Env W A R) (self : Proxy) (args : Nat → A) (w : W)
    (n : Nat) (hn : 0 < n) (hd : E.dlsym self.fname ≠ 0) (sched : List Nat) :
    (Sys.run E self args n w sched).mem.log.countP Event.isDlsym ≤ 1
      ∧ (Sys.run E self args n w sched).exited = none
      ∧ (∀ e ∈ (Sys.run E self args n w sched).mem.log, e.isCall = true →
          ∃ a r held, e = Event.call (E.dlsym self.fname) a r held)
      ∧ (Sys.run E self args n w sched).mem.log.length ≤ 6 * n
      ∧ (∀ i τ, Sys.step E self args i (Sys.run E self args n w sched) = some τ →
          τ.mem.log.length = (Sys.run E self args n w sched).mem.log.length + 1)
      ∧ (∃ more, ∀ i < n,
          Sys.step E self args i (Sys.run E self args n w (sched ++ more)) = none)
      ∧ ((∀ i < n, Sys.step E self args i (Sys.run E self args n w sched) = none) →
          (Sys.run E self args n w sched).mem.log.countP Event.isDlsym = 1
            ∧ (Sys.run E self args n w sched).mem.fptr self = E.dlsym self.fname
            ∧ ∀ i < n, ∃ r held, (Sys.run E self args n w sched).pc i = Pc.done r
                ∧ Event.call (E.dlsym self.fname) (args i) r held
                    ∈ (Sys.run E self args n w sched).mem.log) := by
  have hinv : Sys.Inv E self args n (Sys.run E self args n w sched) :=
    inv_exec E self args n hd sched _ (inv_init E self args n w)
  refine ⟨?_, hinv.alive, hinv.calls, ?_, ?_, ?_, ?_⟩
  · by_cases hp : (Sys.run E self args n w sched).mem.fptr self = 0
    · by_cases hs : ∀ i < n, ((Sys.run E self args n w sched).pc i).storing = false
      · rw [hinv.count0 hp hs]
        exact Nat.zero_le 1
      · push_neg at hs
        obtain ⟨i, hi, hsi⟩ := hs
        rw [hinv.count1 (Or.inr ⟨i, hi, by simpa using hsi⟩)]
    · rw [hinv.count1 (Or.inl hp)]
  · have := hinv.len
    omega
  · intro i τ hstep
    exact step_log_length E self args i _ τ hstep
  · obtain ⟨more, hmore⟩ := can_complete E self args n hd _ _ hinv (Nat.le_refl _)
    refine ⟨more, ?_⟩
    rw [Sys.run, exec_append]
    exact hmore
  · intro hstuck
    have hret := stuck_all_returned E self args n _ hinv hstuck
    have hp : (Sys.run E self args n w sched).mem.fptr self = E.dlsym self.fname := by
      apply hinv.ptr_resolved 0 hn
      have h0 := hret 0 hn
      cases hpc : (Sys.run E self args n w sched).pc 0 <;> rw [hpc] at h0 <;>
        simp [Pc.returned, Pc.resolved] at h0 ⊢
    refine ⟨hinv.count1 (Or.inl (by rw [hp]; exact hd)), hp, fun i hi => ?_⟩
    have hri := hret i hi
    cases hpc : (Sys.run E self args n w sched).pc i with
    | done r =>
      obtain ⟨held, hmem⟩ := hinv.rets i hi r hpc
      exact ⟨r, held, rfl, hmem⟩
    | _ => rw [hpc] at hri; simp [Pc.returned] at hri

/-- After the concrete schedule no thread of the eight can run. -/
theorem demo_run_stuck :
    ∀ i < 8, Sys.step demoEnv Proxy.socket demoArgs i
      (Sys.run demoEnv Proxy.socket demoArgs 8 [] demoSchedule) = none := by
  have h : ∀ i < 8, (Sys.step demoEnv Proxy.socket demoArgs i
      (Sys.run demoEnv Proxy.socket demoArgs 8 [] demoSchedule)).isNone = true := by
    decide
  exact fun i hi => Option.isNone_iff_eq_none.mp (h i hi)

/-- The amended C8 with eight threads in `real::socket`, run to the end one
after the other: one lookup, and every thread has returned. -/
theorem concurrent_resolve_once_witness :
    0 < 8 ∧ demoEnv.dlsym Proxy.socket.fname ≠ 0
      ∧ (∀ i < 8, Sys.step demoEnv Proxy.socket demoArgs i
          (Sys.run demoEnv Proxy.socket demoArgs 8 [] demoSchedule) = none)
      ∧ (Sys.run demoEnv Proxy.socket demoArgs 8 [] demoSchedule).mem.log.countP
          Event.isDlsym = 1
      ∧ (Sys.run demoEnv Proxy.socket demoArgs 8 [] demoSchedule).mem.fptr Proxy.socket = 64 :=
  ⟨by decide, by decide, demo_run_stuck,
    ((concurrent_resolve_once demoEnv Proxy.socket demoArgs [] 8 (by decide) (by decide)
      demoSchedule).2.2.2.2.2.2 demo_run_stuck).1,
    ((concurrent_resolve_once demoEnv Proxy.socket demoArgs [] 8 (by decide) (by decide)
      demoSchedule).2.2.2.2.2.2 demo_run_stuck).2.1.trans (by decide)⟩

/-! ## Ownership of the mutex -/

/-- Ownership after one thread moves. -/
theorem owns_update (pc : Nat → Pc R) (n i : Nat) (v : Pc R) (h k : Option Nat)
    (hold : ∀ j < n, h = some j ↔ (pc j).critical = true)
    (hi : k = some i ↔ v.critical = true)
    (hother : ∀ j, j ≠ i → (k = some j ↔ h = some j)) :
    ∀ j < n, k = some j ↔ (Function.update pc i v j).critical = true := by
  intro j hj
  by_cases hji : j = i
  · subst hji; rw [Function.update_same]; exact hi
  · rw [Function.update_noteq hji, hother j hji]; exact hold j hj

/-- The accesses recorded so far stay as they are when an event is added
that is no access or is an access with the mutex held. -/
theorem accesses_frame (log : List (Event A R)) (e : Event A R)
    (he : e.fptrAccessHeld = true) (hlog : ∀ x ∈ log, x.fptrAccessHeld = true) :
    ∀ x ∈ log ++ [e], x.fptrAccessHeld = true := by
  intro x hx
  rcases List.mem_append.mp hx with hx | hx
  · exact hlog x hx
  · rw [List.mem_singleton.mp hx]; exact he

/-- The ownership invariant holds when the threads enter. -/
theorem owner_init (n : Nat) (w : W) : Sys.Owner n (Sys.init n w : Sys W A R) :=
  { n_eq := rfl
    agree := rfl
    inrange := fun _ h => by simp [Sys.init] at h
    owns := fun _ _ => by simp [Sys.init, Pc.critical]
    accesses := fun e he => by simp [Sys.init, State.init] at he }

/-- One statement of one thread preserves the ownership invariant. -/
theorem owner_step (E : Env W A R) (self : Proxy) (args : Nat → A) (n i : Nat)
    (σ τ : Sys W A R) (hown : Sys.Owner n σ) (h : Sys.step E self args i σ = some τ) :
    Sys.Owner n τ := by
  obtain ⟨hi, -, hcase⟩ := step_cases E self args i σ τ h
  rw [hown.n_eq] at hi
  have hmine : (σ.pc i).critical = true → σ.holder = some i ∧ σ.mem.mutex = true := by
    intro hc
    have hh := (hown.owns i hi).mpr hc
    exact ⟨hh, by rw [hown.agree, hh]; rfl⟩
  have hnotmine : (σ.pc i).critical = false → σ.holder ≠ some i := by
    intro hc hh
    rw [(hown.owns i hi).mp hh] at hc
    exact absurd hc (by simp)
  have hstay : ∀ v : Pc R, v.critical = true → σ.holder = some i →
      ∀ j < n, σ.holder = some j ↔ (Function.update σ.pc i v j).critical = true :=
    fun v hv hh => owns_update σ.pc n i v σ.holder σ.holder hown.owns
      (by simp [hh, hv]) (fun _ _ => Iff.rfl)
  have hleave : ∀ v : Pc R, v.critical = false → σ.holder = some i →
      ∀ j < n, (none : Option Nat) = some j ↔ (Function.update σ.pc i v j).critical = true :=
    fun v hv hh => owns_update σ.pc n i v σ.holder none hown.owns
      (by simp [hv]) (fun j hji => by
        rw [hh]
        constructor
        · intro hc; exact absurd hc (by simp)
        · intro hc; exact absurd (Option.some.inj hc).symm hji)
  have houtside : ∀ v : Pc R, v.critical = false → (σ.pc i).critical = false →
      ∀ j < n, σ.holder = some j ↔ (Function.update σ.pc i v j).critical = true :=
    fun v hv hc => owns_update σ.pc n i v σ.holder σ.holder hown.owns
      (by
        constructor
        · intro hh; exact absurd hh (hnotmine hc)
        · intro hh; rw [hv] at hh; exact absurd hh (by simp))
      (fun _ _ => Iff.rfl)
  rcases hcase with ⟨hpc, hm, rfl⟩ | ⟨hpc, -, rfl⟩ | ⟨hpc, -, rfl⟩ | ⟨hpc, -, rfl⟩
    | ⟨hpc, -, rfl⟩ | ⟨hpc, rfl⟩ | ⟨hpc, rfl⟩ | ⟨hpc, rfl⟩ | ⟨r, hpc, rfl⟩ | ⟨hpc, rfl⟩
    | ⟨hpc, rfl⟩
  · -- line 32: lock
    have hnone : σ.holder = none := by
      have := hown.agree
      rw [hm] at this
      cases hh : σ.holder with
      | none => rfl
      | some k => rw [hh] at this; exact absurd this (by simp)
    exact
      { n_eq := hown.n_eq
        agree := rfl
        inrange := fun j hj => by
          simp only [Option.some.injEq] at hj
          rw [← hj]; exact hi
        owns := owns_update σ.pc n i Pc.atTest σ.holder (some i) hown.owns
          (by simp [Pc.critical]) (fun j hji => by
            rw [hnone]
            constructor
            · intro hc; exact absurd (Option.some.inj hc).symm hji
            · intro hc; exact absurd hc (by simp))
        accesses := accesses_frame σ.mem.log Event.lock rfl hown.accesses }
  · -- line 33: the pointer is null
    obtain ⟨hh, hmu⟩ := hmine (by rw [hpc]; rfl)
    exact
      { n_eq := hown.n_eq
        agree := hown.agree
        inrange := hown.inrange
        owns := hstay Pc.atDlsym rfl hh
        accesses := accesses_frame σ.mem.log
          (Event.test self (decide (σ.mem.fptr self = 0)) σ.mem.mutex) hmu hown.accesses }
  · -- line 33: the pointer is cached
    obtain ⟨hh, hmu⟩ := hmine (by rw [hpc]; rfl)
    exact
      { n_eq := hown.n_eq
        agree := hown.agree
        inrange := hown.inrange
        owns := hstay Pc.atUnlock rfl hh
        accesses := accesses_frame σ.mem.log
          (Event.test self (decide (σ.mem.fptr self = 0)) σ.mem.mutex) hmu hown.accesses }
  · -- lines 34-35: the lookup returns null
    obtain ⟨hh, -⟩ := hmine (by rw [hpc]; rfl)
    exact
      { n_eq := hown.n_eq
        agree := hown.agree
        inrange := hown.inrange
        owns := hstay Pc.atPerror rfl hh
        accesses := accesses_frame σ.mem.log
          (Event.dlsym self.fname (E.dlsym self.fname)) rfl hown.accesses }
  · -- lines 34-35: the lookup succeeds
    obtain ⟨hh, -⟩ := hmine (by rw [hpc]; rfl)
    exact
      { n_eq := hown.n_eq
        agree := hown.agree
        inrange := hown.inrange
        owns := hstay (Pc.atStore (E.dlsym self.fname)) rfl hh
        accesses := accesses_frame σ.mem.log
          (Event.dlsym self.fname (E.dlsym self.fname)) rfl hown.accesses }
  · -- lines 36-37: perror
    obtain ⟨hh, -⟩ := hmine (by rw [hpc]; rfl)
    exact
      { n_eq := hown.n_eq
        agree := hown.agree
        inrange := hown.inrange
        owns := hstay Pc.atUnlockFatal rfl hh
        accesses := accesses_frame σ.mem.log (Event.perror (diagnostic self)) rfl
          hown.accesses }
  · -- line 38: unlock on the fatal path
    obtain ⟨hh, -⟩ := hmine (by rw [hpc]; rfl)
    exact
      { n_eq := hown.n_eq
        agree := rfl
        inrange := fun j hj => by simp at hj
        owns := hleave Pc.atExit rfl hh
        accesses := accesses_frame σ.mem.log Event.unlock rfl hown.accesses }
  · -- line 39: _exit
    exact
      { n_eq := hown.n_eq
        agree := hown.agree
        inrange := hown.inrange
        owns := hown.owns
        accesses := accesses_frame σ.mem.log (Event.exit EXIT_FAILURE) rfl hown.accesses }
  · -- line 41: the store
    obtain ⟨hh, hmu⟩ := hmine (by rw [hpc]; rfl)
    exact
      { n_eq := hown.n_eq
        agree := hown.agree
        inrange := hown.inrange
        owns := hstay Pc.atUnlock rfl hh
        accesses := accesses_frame σ.mem.log (Event.store self r σ.mem.mutex) hmu
          hown.accesses }
  · -- line 43: unlock
    obtain ⟨hh, -⟩ := hmine (by rw [hpc]; rfl)
    exact
      { n_eq := hown.n_eq
        agree := rfl
        inrange := fun j hj => by simp at hj
        owns := hleave Pc.atCall rfl hh
        accesses := accesses_frame σ.mem.log Event.unlock rfl hown.accesses }
  · -- line 44: the forwarded call
    exact
      { n_eq := hown.n_eq
        agree := hown.agree
        inrange := hown.inrange
        owns := houtside _ rfl (by rw [hpc]; rfl)
        accesses := accesses_frame σ.mem.log
          (Event.call (σ.mem.fptr self) (args i)
            (E.apply (σ.mem.fptr self) (args i) σ.mem.world).1 σ.mem.mutex) rfl
          hown.accesses }

/-- The ownership invariant holds after every interleaving. -/
theorem owner_exec (E : Env W A R) (self : Proxy) (args : Nat → A) (n : Nat)
    (sched : List Nat) (σ : Sys W A R) (hown : Sys.Owner n σ) :
    Sys.Owner n (Sys.exec E self args sched σ) := by
  induction sched generalizing σ with
  | nil => exact hown
  | cons i rest ih =>
    rw [Sys.exec]
    cases hstep : Sys.step E self args i σ with
    | none => exact ih σ hown
    | some τ => exact ih τ (owner_step E self args n i σ τ hown hstep)

/-- What one statement of a thread does to the ownership of the mutex, in a
state with the ownership invariant. -/
theorem step_ownership (E : Env W A R) (self : Proxy) (args : Nat → A) (n i : Nat)
    (σ τ : Sys W A R) (hown : Sys.Owner n σ) (h : Sys.step E self args i σ = some τ) :
    (σ.pc i = Pc.atLock → σ.holder = none ∧ τ.holder = some i)
      ∧ ((σ.pc i).critical = true → σ.holder = some i)
      ∧ (σ.pc i = Pc.atUnlock ∨ σ.pc i = Pc.atUnlockFatal → τ.holder = none)
      ∧ (σ.pc i = Pc.atCall →
          σ.holder ≠ some i ∧ τ.holder = σ.holder
            ∧ τ.mem.log = σ.mem.log ++ [Event.call (σ.mem.fptr self) (args i)
                (E.apply (σ.mem.fptr self) (args i) σ.mem.world).1 σ.mem.mutex]
            ∧ τ.pc i = Pc.done (E.apply (σ.mem.fptr self) (args i) σ.mem.world).1)
      ∧ (σ.pc i = Pc.atExit →
          σ.holder ≠ some i ∧ τ.holder = σ.holder ∧ τ.exited = some EXIT_FAILURE)
      ∧ (τ.pc i = Pc.atCall →
          σ.pc i = Pc.atUnlock ∧ τ.mem.log = σ.mem.log ++ [Event.unlock]) := by
  obtain ⟨hi, -, hcase⟩ := step_cases E self args i σ τ h
  rw [hown.n_eq] at hi
  have hmine : (σ.pc i).critical = true → σ.holder = some i := (hown.owns i hi).mpr
  have hnotmine : (σ.pc i).critical = false → σ.holder ≠ some i := by
    intro hc hh
    rw [(hown.owns i hi).mp hh] at hc
    exact absurd hc (by simp)
  have hfree : σ.mem.mutex = false → σ.holder = none := by
    intro hm
    have := hown.agree
    rw [hm] at this
    cases hh : σ.holder with
    | none => rfl
    | some k => rw [hh] at this; exact absurd this (by simp)
  refine ⟨?_, hmine, ?_, ?_, ?_, ?_⟩
  · intro hpc
    rcases hcase with ⟨c, hm, rfl⟩ | ⟨c, -, -⟩ | ⟨c, -, -⟩ | ⟨c, -, -⟩ | ⟨c, -, -⟩ | ⟨c, -⟩
      | ⟨c, -⟩ | ⟨c, -⟩ | ⟨r, c, -⟩ | ⟨c, -⟩ | ⟨c, -⟩
    all_goals
      first
        | exact ⟨hfree hm, rfl⟩
        | (rw [hpc] at c; exact absurd c (by simp))
  · intro hpc
    rcases hcase with ⟨c, -, -⟩ | ⟨c, -, -⟩ | ⟨c, -, -⟩ | ⟨c, -, -⟩ | ⟨c, -, -⟩ | ⟨c, -⟩
      | ⟨c, rfl⟩ | ⟨c, -⟩ | ⟨r, c, -⟩ | ⟨c, rfl⟩ | ⟨c, -⟩
    all_goals
      first
        | rfl
        | (rcases hpc with hpc | hpc <;> rw [hpc] at c <;> exact absurd c (by simp))
  · intro hpc
    rcases hcase with ⟨c, -, -⟩ | ⟨c, -, -⟩ | ⟨c, -, -⟩ | ⟨c, -, -⟩ | ⟨c, -, -⟩ | ⟨c, -⟩
      | ⟨c, -⟩ | ⟨c, -⟩ | ⟨r, c, -⟩ | ⟨c, -⟩ | ⟨c, rfl⟩
    all_goals
      first
        | exact ⟨hnotmine (by rw [hpc]; rfl), rfl, rfl, by simp⟩
        | (rw [hpc] at c; exact absurd c (by simp))
  · intro hpc
    rcases hcase with ⟨c, -, -⟩ | ⟨c, -, -⟩ | ⟨c, -, -⟩ | ⟨c, -, -⟩ | ⟨c, -, -⟩ | ⟨c, -⟩
      | ⟨c, -⟩ | ⟨c, rfl⟩ | ⟨r, c, -⟩ | ⟨c, -⟩ | ⟨c, -⟩
    all_goals
      first
        | exact ⟨hnotmine (by rw [hpc]; rfl), rfl, rfl⟩
        | (rw [hpc] at c; exact absurd c (by simp))
  · intro hpc
    rcases hcase with ⟨c, -, rfl⟩ | ⟨c, -, rfl⟩ | ⟨c, -, rfl⟩ | ⟨c, -, rfl⟩ | ⟨c, -, rfl⟩
      | ⟨c, rfl⟩ | ⟨c, rfl⟩ | ⟨c, rfl⟩ | ⟨r, c, rfl⟩ | ⟨c, rfl⟩ | ⟨c, rfl⟩
    all_goals
      first
        | exact ⟨c, rfl⟩
        | (simp at hpc; done)
        | (dsimp only at hpc; rw [hpc] at c; exact absurd c (by simp))

/-- C9, amended: the invoking thread holds the mutex for the null test and
the slow-path resolution only, not for the forwarded call. In the events of
an invocation that forwards, its release of the mutex comes before its call
to the real implementation, which is its last action, with no acquisition in
between. With any number of threads and after every interleaving: a thread
reaches the call statement only by its own `unlock()`, which ends its
ownership; the thread that runs the forwarded call does not own the mutex
and the call leaves the ownership as it is; and no thread that is about to
call or has returned owns the mutex. Another thread may own it meanwhile. -/
theorem unlock_before_call (E : Env W A R) (self : Proxy) (a : A) (s : State W A R)
    (args : Nat → A) (w : W) (n : Nat) (sched : List Nat) :
    (s.fptr self ≠ 0 ∨ E.dlsym self.fname ≠ 0 →
        ∃ mid held, DlsymFun.events E self a s =
            Event.lock :: mid ++ [Event.unlock,
              Event.call (DlsymFun.target E self s) a
                (E.apply (DlsymFun.target E self s) a s.world).1 held]
          ∧ mid.countP Event.isLock = 0 ∧ mid.countP Event.isUnlock = 0
          ∧ mid.countP Event.isCall = 0)
      ∧ (∀ i τ, Sys.step E self args i (Sys.run E self args n w sched) = some τ →
          τ.pc i = Pc.atCall →
            (Sys.run E self args n w sched).pc i = Pc.atUnlock
              ∧ (Sys.run E self args n w sched).holder = some i
              ∧ τ.holder = none
              ∧ τ.mem.log = (Sys.run E self args n w sched).mem.log ++ [Event.unlock])
      ∧ (∀ i τ, Sys.step E self args i (Sys.run E self args n w sched) = some τ →
          (Sys.run E self args n w sched).pc i = Pc.atCall →
            (Sys.run E self args n w sched).holder ≠ some i
              ∧ τ.holder = (Sys.run E self args n w sched).holder
              ∧ τ.mem.log = (Sys.run E self args n w sched).mem.log ++
                  [Event.call ((Sys.run E self args n w sched).mem.fptr self) (args i)
                    (E.apply ((Sys.run E self args n w sched).mem.fptr self) (args i)
                      (Sys.run E self args n w sched).mem.world).1
                    (Sys.run E self args n w sched).mem.mutex]
              ∧ τ.pc i = Pc.done
                  (E.apply ((Sys.run E self args n w sched).mem.fptr self) (args i)
                    (Sys.run E self args n w sched).mem.world).1)
      ∧ (∀ i < n, ((Sys.run E self args n w sched).pc i = Pc.atCall
            ∨ ((Sys.run E self args n w sched).pc i).returned = true) →
          (Sys.run E self args n w sched).holder ≠ some i) := by
  have hown : Sys.Owner n (Sys.run E self args n w sched) :=
    owner_exec E self args n sched _ (owner_init n w)
  refine ⟨?_, ?_, ?_, ?_⟩
  · intro h
    by_cases h0 : s.fptr self = 0
    · have hd : E.dlsym self.fname ≠ 0 := h.resolve_left (fun hne => hne h0)
      refine ⟨[Event.test self true true, Event.dlsym self.fname (E.dlsym self.fname),
        Event.store self (E.dlsym self.fname) true], false, ?_, ?_, ?_, ?_⟩
      · simp [events_resolved E self a s h0 hd, DlsymFun.target, h0]
      · simp [Event.isLock]
      · simp [Event.isUnlock]
      · simp [Event.isCall]
    · refine ⟨[Event.test self false true], false, ?_, ?_, ?_, ?_⟩
      · simp [events_cached E self a s h0, DlsymFun.target, h0]
      · simp [Event.isLock]
      · simp [Event.isUnlock]
      · simp [Event.isCall]
  · intro i τ hstep hτ
    obtain ⟨-, hcrit, hrel, -, -, hreach⟩ := step_ownership E self args n i _ τ hown hstep
    obtain ⟨hpc, hlog⟩ := hreach hτ
    exact ⟨hpc, hcrit (by rw [hpc]; rfl), hrel (Or.inl hpc), hlog⟩
  · intro i τ hstep hpc
    exact (step_ownership E self args n i _ τ hown hstep).2.2.2.1 hpc
  · intro i hi hpc hh
    have hc := (hown.owns i hi).mp hh
    rcases hpc with hpc | hpc
    · rw [hpc] at hc
      exact absurd hc (by simp [Pc.critical])
    · cases hp : (Sys.run E self args n w sched).pc i <;> rw [hp] at hc hpc <;>
        simp [Pc.critical, Pc.returned] at hc hpc

/-- The amended C9 with two threads in `real::socket`: thread 0 has resolved
and released, thread 1 has acquired the mutex; thread 0 is about to call
and does not own the mutex, which thread 1 owns. -/
theorem unlock_before_call_witness :
    (Sys.run demoEnv Proxy.socket demoArgs 2 [] [0, 0, 0, 0, 0, 1]).pc 0 = Pc.atCall
      ∧ (Sys.run demoEnv Proxy.socket demoArgs 2 [] [0, 0, 0, 0, 0, 1]).holder = some 1
      ∧ (Sys.run demoEnv Proxy.socket demoArgs 2 [] [0, 0, 0, 0, 0, 1]).holder ≠ some 0 :=
  ⟨by decide, by decide,
    (unlock_before_call demoEnv Proxy.socket [] demoInit demoArgs [] 2
      [0, 0, 0, 0, 0, 1]).2.2.2 0 (by decide) (Or.inl (by decide))⟩

/-- C10, as stated, fails in its consequence that the mutex is free whenever
an invocation returns or ends the process. Of two threads in `real::socket`,
thread 0 resolves and releases, thread 1 acquires, and thread 0 returns
while the mutex is held by thread 1. Of two threads in `real::listen`, which
cannot be resolved, thread 0 reports and releases, thread 1 acquires, and
thread 0 ends the process while the mutex is held by thread 1. -/
theorem mutex_held_at_return :
    (Sys.run demoEnv Proxy.socket demoArgs 2 [] [0, 0, 0, 0, 0, 1, 0]).pc 0 = Pc.done 3
      ∧ (Sys.run demoEnv Proxy.socket demoArgs 2 [] [0, 0, 0, 0, 0, 1, 0]).mem.mutex = true
      ∧ (Sys.run demoEnv Proxy.socket demoArgs 2 [] [0, 0, 0, 0, 0, 1, 0]).holder = some 1
      ∧ (Sys.run demoEnv Proxy.socket demoArgs 2 [] [0, 0, 0, 0, 0, 1, 0]).mem.log
          = [Event.lock, Event.test Proxy.socket true true, Event.dlsym "socket" 64,
              Event.store Proxy.socket 64 true, Event.unlock, Event.lock,
              Event.call 64 [0] 3 true]
      ∧ (Sys.run demoEnv Proxy.listen demoArgs 2 [] [0, 0, 0, 0, 0, 1, 0]).exited
          = some EXIT_FAILURE
      ∧ (Sys.run demoEnv Proxy.listen demoArgs 2 [] [0, 0, 0, 0, 0, 1, 0]).mem.mutex = true
      ∧ (Sys.run demoEnv Proxy.listen demoArgs 2 [] [0, 0, 0, 0, 0, 1, 0]).holder = some 1
      ∧ (Sys.run demoEnv Proxy.listen demoArgs 2 [] [0, 0, 0, 0, 0, 1, 0]).mem.log
          = [Event.lock, Event.test Proxy.listen true true, Event.dlsym "listen" 0,
              Event.perror "dlsym(listen)", Event.unlock, Event.lock, Event.exit 1] := by
  decide

/-- C10, amended: every invocation acquires the mutex exactly once, as its
first action, tests the cached pointer next, and releases the mutex exactly
once, after which it only forwards or exits; on the fatal path the release
comes right before `_exit`. With any number of threads and after every
interleaving: the mutex is held exactly when a thread owns it, and a thread
owns it exactly between its `lock()` and its `unlock()`; `lock()` returns
only when no thread owns the mutex and makes the caller the owner; the null
test and the store are run by the owner only, and every one so far was made
with the mutex held; each `unlock()` is run by the owner and ends its
ownership; and a thread that runs `_exit` or has returned does not own the
mutex, which another thread may hold by then. -/
theorem lock_discipline (E : Env W A R) (self : Proxy) (a : A) (s : State W A R)
    (args : Nat → A) (w : W) (n : Nat) (sched : List Nat) :
    (DlsymFun.events E self a s).countP Event.isLock = 1
      ∧ (DlsymFun.events E self a s).countP Event.isUnlock = 1
      ∧ (∃ isNull mid post, DlsymFun.events E self a s =
          Event.lock :: Event.test self isNull true :: mid ++ Event.unlock :: post
          ∧ (∀ e ∈ post, e.isCall = true ∨ e.isExit = true) ∧ post.length = 1)
      ∧ (s.fptr self = 0 ∧ E.dlsym self.fname = 0 →
          (DlsymFun.events E self a s).drop 4 = [Event.unlock, Event.exit EXIT_FAILURE])
      ∧ (∀ e ∈ DlsymFun.events E self a s, e.fptrAccessHeld = true)
      ∧ ((Sys.run E self args n w sched).mem.mutex = true ↔
          ∃ i < n, (Sys.run E self args n w sched).holder = some i)
      ∧ (∀ i < n, (Sys.run E self args n w sched).holder = some i ↔
          ((Sys.run E self args n w sched).pc i).critical = true)
      ∧ (∀ e ∈ (Sys.run E self args n w sched).mem.log, e.fptrAccessHeld = true)
      ∧ (∀ i τ, Sys.step E self args i (Sys.run E self args n w sched) = some τ →
          ((Sys.run E self args n w sched).pc i = Pc.atLock →
              (Sys.run E self args n w sched).holder = none ∧ τ.holder = some i)
            ∧ ((Sys.run E self args n w sched).pc i = Pc.atTest
                ∨ ((Sys.run E self args n w sched).pc i).storing = true →
              (Sys.run E self args n w sched).holder = some i
                ∧ (Sys.run E self args n w sched).mem.mutex = true)
            ∧ ((Sys.run E self args n w sched).pc i = Pc.atUnlock
                ∨ (Sys.run E self args n w sched).pc i = Pc.atUnlockFatal →
              (Sys.run E self args n w sched).holder = some i ∧ τ.holder = none)
            ∧ ((Sys.run E self args n w sched).pc i = Pc.atExit →
              (Sys.run E self args n w sched).holder ≠ some i
                ∧ τ.holder = (Sys.run E self args n w sched).holder
                ∧ τ.exited = some EXIT_FAILURE))
      ∧ (∀ i < n, ((Sys.run E self args n w sched).pc i).returned = true →
          (Sys.run E self args n w sched).holder ≠ some i) := by
  have hown : Sys.Owner n (Sys.run E self args n w sched) :=
    owner_exec E self args n sched _ (owner_init n w)
  have hlone : (DlsymFun.events E self a s).countP Event.isLock = 1
      ∧ (DlsymFun.events E self a s).countP Event.isUnlock = 1
      ∧ (∃ isNull mid post, DlsymFun.events E self a s =
          Event.lock :: Event.test self isNull true :: mid ++ Event.unlock :: post
          ∧ (∀ e ∈ post, e.isCall = true ∨ e.isExit = true) ∧ post.length = 1)
      ∧ (s.fptr self = 0 ∧ E.dlsym self.fname = 0 →
          (DlsymFun.events E self a s).drop 4 = [Event.unlock, Event.exit EXIT_FAILURE])
      ∧ (∀ e ∈ DlsymFun.events E self a s, e.fptrAccessHeld = true) := by
    by_cases h0 : s.fptr self = 0
    · by_cases hd : E.dlsym self.fname = 0
      · rw [events_fatal E self a s h0 hd]
        exact ⟨by simp [Event.isLock], by simp [Event.isUnlock],
          ⟨true, [Event.dlsym self.fname 0, Event.perror (diagnostic self)],
            [Event.exit EXIT_FAILURE], by simp, by simp [Event.isExit], rfl⟩,
          fun _ => by simp, by simp [Event.fptrAccessHeld]⟩
      · rw [events_resolved E self a s h0 hd]
        exact ⟨by simp [Event.isLock], by simp [Event.isUnlock],
          ⟨true, [Event.dlsym self.fname (E.dlsym self.fname),
              Event.store self (E.dlsym self.fname) true],
            [Event.call (E.dlsym self.fname) a
              (E.apply (E.dlsym self.fname) a s.world).1 false],
            by simp, by simp [Event.isCall], rfl⟩,
          fun h => absurd h.2 hd, by simp [Event.fptrAccessHeld]⟩
    · rw [events_cached E self a s h0]
      exact ⟨by simp [Event.isLock], by simp [Event.isUnlock],
        ⟨false, [], [Event.call (s.fptr self) a (E.apply (s.fptr self) a s.world).1 false],
          by simp, by simp [Event.isCall], rfl⟩,
        fun h => absurd h.1 h0, by simp [Event.fptrAccessHeld]⟩
  refine ⟨hlone.1, hlone.2.1, hlone.2.2.1, hlone.2.2.2.1, hlone.2.2.2.2, ?_, hown.owns,
    hown.accesses, ?_, ?_⟩
  · rw [hown.agree]
    constructor
    · intro hsome
      obtain ⟨k, hk⟩ := Option.isSome_iff_exists.mp hsome
      exact ⟨k, hown.inrange k hk, hk⟩
    · rintro ⟨k, -, hk⟩
      rw [hk]; rfl
  · intro i τ hstep
    obtain ⟨hlock, hcrit, hrel, -, hexit, -⟩ := step_ownership E self args n i _ τ hown hstep
    refine ⟨hlock, ?_, ?_, hexit⟩
    · intro hpc
      have hc : ((Sys.run E self args n w sched).pc i).critical = true := by
        rcases hpc with hpc | hpc
        · rw [hpc]; rfl
        · exact storing_critical _ hpc
      have hh := hcrit hc
      exact ⟨hh, by rw [hown.agree, hh]; rfl⟩
    · intro hpc
      have hc : ((Sys.run E self args n w sched).pc i).critical = true := by
        rcases hpc with hpc | hpc <;> rw [hpc] <;> rfl
      exact ⟨hcrit hc, hrel hpc⟩
  · intro i hi hret hh
    have hc := (hown.owns i hi).mp hh
    cases hp : (Sys.run E self args n w sched).pc i <;> rw [hp] at hc hret <;>
      simp [Pc.critical, Pc.returned] at hc hret

/-- The amended C10 with two threads in `real::socket`: thread 0 has returned
and does not own the mutex, which thread 1 owns. -/
theorem lock_discipline_witness :
    ((Sys.run demoEnv Proxy.socket demoArgs 2 [] [0, 0, 0, 0, 0, 1, 0]).pc 0).returned = true
      ∧ (Sys.run demoEnv Proxy.socket demoArgs 2 [] [0, 0, 0, 0, 0, 1, 0]).holder = some 1
      ∧ (Sys.run demoEnv Proxy.socket demoArgs 2 [] [0, 0, 0, 0, 0, 1, 0]).holder ≠ some 0 :=
  ⟨by decide, by decide,
    (lock_discipline demoEnv Proxy.socket [] demoInit demoArgs [] 2
      [0, 0, 0, 0, 0, 1, 0]).2.2.2.2.2.2.2.2.2 0 (by decide) (by decide)⟩

end Ip2unix
